import Mathlib

/-!
# Verification of the structured payload index (`struct_payload_index.rs`)

This file is a shallow embedding of the `StructPayloadIndex` facade of the
segment payload-index subsystem, together with proofs of the specified
properties: query soundness, cardinality-estimation bounds, de-duplication,
idempotence of index lifecycle operations, persistence ordering and the
memory/config invariant.

The single source file under verification is
`src/lib/segment/src/index/struct_payload_index.rs`.  External collaborators
(the per-field index variants, the query estimator combinators, the generic
filter checker, the condition checker, the id tracker and the storages) are
not part of that file; where a definition below stands for such missing code
its doc comment starts with `Modelled from the spec:`.

Machine integers (`usize`, `PointOffsetType = u32`) are modelled as `Nat`;
the counts involved are bounded by the number of points of a segment, far
from any overflow, and the source performs no wrapping arithmetic
(`saturating_sub` is Nat subtraction).  `f64` payload numbers are modelled
as `Rat`; no claim depends on float rounding.
-/

namespace Qdrant

/-! ## Data model -/

/-- Source `PayloadSchemaType`: declared schema tag of an indexed field. -/
inductive PayloadSchemaType where
  | integer
  | float
  | keyword
  | geo
deriving DecidableEq, Repr

/-- Geo point, `lat`/`lon` pair (`f64` modelled as `Rat`). -/
structure GeoPoint where
  lat : Rat
  lon : Rat

/-- JSON-like payload value (`serde_json::Value`).  Integer and float
numbers are kept apart, as `serde_json::Number` does. -/
inductive Value where
  | num : Int → Value
  | fnum : Rat → Value
  | str : String → Value
  | arr : List Value → Value
  | obj : List (String × Value) → Value

/-- Modelled from the spec: the sub-condition payloads (`Match`, `Range`,
`GeoRadius`, `GeoBoundingBox`, `ValuesCount`) and their `ValueChecker`
implementations live in `types.rs` / `condition_checker.rs`, outside the
source under verification.  Each sub-condition is modelled by its
satisfaction predicate on JSON values; both the reference
`ConditionChecker` and the index-side evaluation of
`StructFilterContext::check` apply the very same `check` methods, so one
predicate serves both sides. -/
def SubCondition : Type := Value → Bool

/-- Source `FieldCondition`: a payload key plus optional sub-conditions. -/
structure FieldCondition where
  key : String
  matchCond : Option SubCondition
  range : Option SubCondition
  geo_radius : Option SubCondition
  geo_bounding_box : Option SubCondition
  values_count : Option SubCondition

mutual
/-- Source `Condition`: a leaf of a filter tree (`Field`, `HasId`, `IsEmpty`) or a
nested `Filter`.  External point ids in `HasId` are modelled as `Nat`. -/
inductive Condition : Type where
  | cfield : FieldCondition → Condition
  | hasId : List Nat → Condition
  | isEmpty : String → Condition
  | subfilter : Filter → Condition

/-- Source `Filter`: boolean tree with optional `should` / `must` / `must_not`
clause lists (in the field order of `types.rs`). -/
inductive Filter : Type where
  | mk : Option (List Condition) → Option (List Condition) →
      Option (List Condition) → Filter
end

/-- Source `should` clauses of a filter. -/
def Filter.should : Filter → Option (List Condition)
  | .mk s _ _ => s

/-- Source `must` clauses of a filter. -/
def Filter.must : Filter → Option (List Condition)
  | .mk _ m _ => m

/-- Source `must_not` clauses of a filter. -/
def Filter.must_not : Filter → Option (List Condition)
  | .mk _ _ n => n

/-- Source `PrimaryCondition`: a clause that can drive an index probe. -/
inductive PrimaryCondition where
  | condition : FieldCondition → PrimaryCondition
  | ids : List Nat → PrimaryCondition
  | isEmptyClause : String → PrimaryCondition

/-- Source `CardinalityEstimation { primary_clauses, min, exp, max }`. -/
structure CardinalityEstimation where
  primary_clauses : List PrimaryCondition
  min : Nat
  exp : Nat
  max : Nat

/-- Modelled from the spec: `CardinalityEstimation::unknown(total)` (in
`field_index/mod.rs`, outside the source under verification) — the
"no usable index" estimate `{[], 0, total/2, total}`. -/
def CardinalityEstimation.unknown (total : Nat) : CardinalityEstimation :=
  ⟨[], 0, total / 2, total⟩

/-! ## Field indexes (capability contract)

The concrete per-type indexes are out of scope; the enum `FieldIndex` with
its five variants and the delegating capability methods come from
`field_index/mod.rs`, outside the source under verification. -/

/-- Capability record of one physical field index over stored values of
type `α`: condition-driven id stream, cardinality estimate, number of
indexed points and per-point stored values. -/
structure IndexCaps (α : Type) where
  filterIds : FieldCondition → Option (List Nat)
  estimateCard : FieldCondition → Option CardinalityEstimation
  count_indexed_points : Nat
  get_values : Nat → Option (List α)

/-- Modelled from the spec: the `FieldIndex` enum with its five variants
(`IntIndex`, `IntMapIndex`, `KeywordIndex`, `FloatIndex`, `GeoIndex`),
each carrying its capability record. -/
inductive FieldIndex where
  | intIndex : IndexCaps Int → FieldIndex
  | intMapIndex : IndexCaps Int → FieldIndex
  | keywordIndex : IndexCaps String → FieldIndex
  | floatIndex : IndexCaps Rat → FieldIndex
  | geoIndex : IndexCaps GeoPoint → FieldIndex

/-- Modelled from the spec: delegation of `PayloadFieldIndex::filter` over
the `FieldIndex` enum. -/
def FieldIndex.filterIds : FieldIndex → FieldCondition → Option (List Nat)
  | .intIndex c => c.filterIds
  | .intMapIndex c => c.filterIds
  | .keywordIndex c => c.filterIds
  | .floatIndex c => c.filterIds
  | .geoIndex c => c.filterIds

/-- Modelled from the spec: delegation of
`PayloadFieldIndex::estimate_cardinality` over the `FieldIndex` enum. -/
def FieldIndex.estimateCard :
    FieldIndex → FieldCondition → Option CardinalityEstimation
  | .intIndex c => c.estimateCard
  | .intMapIndex c => c.estimateCard
  | .keywordIndex c => c.estimateCard
  | .floatIndex c => c.estimateCard
  | .geoIndex c => c.estimateCard

/-- Modelled from the spec: delegation of
`PayloadFieldIndex::count_indexed_points` over the `FieldIndex` enum. -/
def FieldIndex.count_indexed_points : FieldIndex → Nat
  | .intIndex c => c.count_indexed_points
  | .intMapIndex c => c.count_indexed_points
  | .keywordIndex c => c.count_indexed_points
  | .floatIndex c => c.count_indexed_points
  | .geoIndex c => c.count_indexed_points

/-! ## Association lists

`HashMap`s (`config.indexed_fields`, `field_indexes`) are modelled as
association lists; the operations below reproduce the map semantics
(`insert` replaces in place, `remove` deletes the binding). -/

/-- First-match lookup in an association list. -/
def alookup {β : Type} (k : String) : List (String × β) → Option β
  | [] => none
  | (k₁, v) :: t => if k₁ = k then some v else alookup k t

/-- Insert-or-replace in an association list. -/
def ainsert {β : Type} (k : String) (v : β) :
    List (String × β) → List (String × β)
  | [] => [(k, v)]
  | (k₁, v₁) :: t => if k₁ = k then (k, v) :: t else (k₁, v₁) :: ainsert k v t

/-- Remove a binding from an association list. -/
def aremove {β : Type} (k : String) :
    List (String × β) → List (String × β)
  | [] => []
  | (k₁, v₁) :: t => if k₁ = k then t else (k₁, v₁) :: aremove k t

/-! ## Read-path environment

The read path of `StructPayloadIndex` sees: the vector storage (id
iteration / point count), the payload storage (canonical payload, read by
the external `ConditionChecker`), the id tracker and the in-memory
`field_indexes` map. -/

/-- Read-path snapshot of a `StructPayloadIndex` together with its external
collaborators (`VectorStorage` id iteration, canonical payload lookup of
`PayloadStorage`, `IdTracker::internal_id`). -/
structure Env where
  allIds : List Nat
  payload : Nat → String → Option Value
  idTracker : Nat → Option Nat
  fieldIndexes : List (String × List FieldIndex)

/-- Source `total_points()`: `vector_storage.vector_count()`, the number of
points iterated by `iter_ids`. -/
def total_points (env : Env) : Nat := env.allIds.length

/-- Source `estimate_field_condition` (source lines 49–63): ask the variants of
the key in order, first `Some` estimation wins; `None` if the key is not
indexed or no variant can estimate. -/
def estimate_field_condition (env : Env) (condition : FieldCondition) :
    Option CardinalityEstimation :=
  (alookup condition.key env.fieldIndexes).bind fun indexes =>
    indexes.findSome? fun index => index.estimateCard condition

/-- Source `query_field` (source lines 65–80): first variant of the key whose
`filter` serves the condition; `None` otherwise. -/
def query_field (env : Env) (field_condition : FieldCondition) :
    Option (List Nat) :=
  (alookup field_condition.key env.fieldIndexes).bind fun indexes =>
    indexes.findSome? fun index => index.filterIds field_condition

/-- The leaf estimator closure of `estimate_cardinality` (source lines
276–323).  `none` models the `panic!("Unexpected branching")` on a nested
`Condition::Filter` reaching the leaf estimator. -/
def condition_estimator (env : Env) : Condition → Option CardinalityEstimation
  | .subfilter _ => none
  | .isEmpty field =>
      let total := total_points env
      match alookup field env.fieldIndexes with
      | some field_indexes =>
          let indexed_points :=
            field_indexes.foldl (fun m index => Nat.max m index.count_indexed_points) 0
          some ⟨[PrimaryCondition.isEmptyClause field], 0,
            total - indexed_points, total - indexed_points⟩
      | none =>
          some ⟨[PrimaryCondition.isEmptyClause field], 0, total / 2, total⟩
  | .hasId has_id =>
      let mapped_ids := (has_id.filterMap env.idTracker).dedup
      let num_ids := mapped_ids.length
      some ⟨[PrimaryCondition.ids mapped_ids], num_ids, num_ids, num_ids⟩
  | .cfield field_condition =>
      some ((estimate_field_condition env field_condition).getD
        (CardinalityEstimation.unknown (total_points env)))

/-! ## Query estimator combinators

Modelled from the spec (§4.D): `query_estimator.rs` is outside the source
under verification.  Composite estimates use interval algebra over a
universe of `total` points; `primary_clauses` concatenate on `Must`,
concatenate on `Should` only when every child contributes, and vanish on
`MustNot`. -/

/-- Modelled from the spec: intersection (`Must`) combination of two
estimations.  `Nat` subtraction realises `max(0, ·)`. -/
def combine_must_pair (total : Nat) (a b : CardinalityEstimation) :
    CardinalityEstimation :=
  ⟨a.primary_clauses ++ b.primary_clauses,
   a.min + b.min - total,
   a.exp * b.exp / total,
   Nat.min a.max b.max⟩

/-- Modelled from the spec: the neutral estimation of an absent constraint
(the whole universe). -/
def full_estimation (total : Nat) : CardinalityEstimation :=
  ⟨[], total, total, total⟩

/-- Modelled from the spec: `Must` combination of a list of estimations. -/
def combine_must_list (total : Nat) (es : List CardinalityEstimation) :
    CardinalityEstimation :=
  es.foldl (combine_must_pair total) (full_estimation total)

/-- Modelled from the spec: union (`Should`) combination of two
estimations. -/
def combine_should_pair (total : Nat) (a b : CardinalityEstimation) :
    CardinalityEstimation :=
  ⟨a.primary_clauses ++ b.primary_clauses,
   Nat.max a.min b.min,
   total - (total - a.exp) * (total - b.exp) / total,
   Nat.min total (a.max + b.max)⟩

/-- Modelled from the spec: `Should` combination of a list of estimations;
primary clauses survive only when every child contributed some. -/
def combine_should_list (total : Nat) (es : List CardinalityEstimation) :
    CardinalityEstimation :=
  let base := es.foldl (combine_should_pair total) ⟨[], 0, 0, 0⟩
  if es.all (fun e => !e.primary_clauses.isEmpty) then base
  else ⟨[], base.min, base.exp, base.max⟩

/-- Modelled from the spec: `MustNot` inversion of one estimation;
primary clauses vanish. -/
def invert_estimation (total : Nat) (a : CardinalityEstimation) :
    CardinalityEstimation :=
  ⟨[], total - a.max, total - a.exp, total - a.min⟩

mutual
/-- Modelled from the spec: per-condition step of
`query_estimator::estimate_filter` — nested filters recurse, leaves go to
the estimator closure (which never sees a nested filter, hence `getD` of a
value the closure always provides on leaves). -/
def estimate_condition (env : Env) (total : Nat) :
    Condition → CardinalityEstimation
  | .subfilter f => estimate_filter env total f
  | .cfield fc =>
      (condition_estimator env (.cfield fc)).getD
        (CardinalityEstimation.unknown total)
  | .hasId ids =>
      (condition_estimator env (.hasId ids)).getD
        (CardinalityEstimation.unknown total)
  | .isEmpty k =>
      (condition_estimator env (.isEmpty k)).getD
        (CardinalityEstimation.unknown total)

/-- Modelled from the spec: estimation of each condition of a clause
list. -/
def estimate_list (env : Env) (total : Nat) :
    List Condition → List CardinalityEstimation
  | [] => []
  | c :: rest => estimate_condition env total c :: estimate_list env total rest

/-- Modelled from the spec: `query_estimator::estimate_filter` — combine
the optional `must` / `should` / `must_not` groups with `Must`
(intersection) semantics. -/
def estimate_filter (env : Env) (total : Nat) : Filter → CardinalityEstimation
  | .mk should must mustNot =>
      let mustE :=
        match must with
        | none => none
        | some cs => some (combine_must_list total (estimate_list env total cs))
      let shouldE :=
        match should with
        | none => none
        | some cs => some (combine_should_list total (estimate_list env total cs))
      let mustNotE :=
        match mustNot with
        | none => none
        | some cs =>
            some (combine_must_list total
              ((estimate_list env total cs).map (invert_estimation total)))
      combine_must_list total ([mustE, shouldE, mustNotE].filterMap id)
end

/-- Source `estimate_cardinality` (source lines 273–326). -/
def estimate_cardinality (env : Env) (query : Filter) : CardinalityEstimation :=
  estimate_filter env (total_points env) query

/-! ## The reference `ConditionChecker`

Modelled from the spec: the external `ConditionChecker` is the reference
(non-indexed) evaluator of a filter against one point; it reads the
canonical payload and applies the same sub-condition `check` predicates.
Its filter-tree walk is `query_checker::check_filter`: `must` — all hold,
`must_not` — none holds, `should` — at least one holds, absent list —
no constraint, nested filters recurse. -/

/-- Sub-condition disjunction of a `FieldCondition` on one payload value:
a field leaf holds iff any configured sub-condition accepts the value
(the `res = res || …` chain of source lines 552–579, and equally the
reference checker). -/
def field_condition_sat (fc : FieldCondition) (v : Value) : Bool :=
  (fc.matchCond.elim false fun c => c v) ||
  (fc.range.elim false fun c => c v) ||
  (fc.geo_radius.elim false fun c => c v) ||
  (fc.geo_bounding_box.elim false fun c => c v) ||
  (fc.values_count.elim false fun c => c v)

/-- Modelled from the spec: mapped internal ids of a `HasId` condition —
external ids through `IdTracker::internal_id`, unknown ids dropped,
collected into a set (deduplicated). -/
def mapped_ids (env : Env) (has_id : List Nat) : List Nat :=
  (has_id.filterMap env.idTracker).dedup

/-- Modelled from the spec: reference evaluation of one leaf condition at a
point — the canonical payload decides field and emptiness leaves, the id
tracker decides `HasId` leaves.  Nested filters never reach this function
(`check_filter` recurses on them first); that case is arbitrary `false`. -/
def cc_condition (env : Env) (point_id : Nat) : Condition → Bool
  | .cfield fc => (env.payload point_id fc.key).elim false (field_condition_sat fc)
  | .hasId ids => decide (point_id ∈ mapped_ids env ids)
  | .isEmpty k =>
      match env.payload point_id k with
      | none => true
      | some (.arr []) => true
      | some _ => false
  | .subfilter _ => false

mutual
/-- Modelled from the spec: `query_checker::check_condition` — nested
filters recurse, leaves go to the per-leaf checker. -/
def check_condition (checker : Condition → Bool) : Condition → Bool
  | .subfilter f => check_filter checker f
  | .cfield fc => checker (.cfield fc)
  | .hasId ids => checker (.hasId ids)
  | .isEmpty k => checker (.isEmpty k)

/-- Modelled from the spec: all conditions of a `must` list hold. -/
def check_all (checker : Condition → Bool) : List Condition → Bool
  | [] => true
  | c :: rest => check_condition checker c && check_all checker rest

/-- Modelled from the spec: some condition of a `should` list holds. -/
def check_any (checker : Condition → Bool) : List Condition → Bool
  | [] => false
  | c :: rest => check_condition checker c || check_any checker rest

/-- Modelled from the spec: no condition of a `must_not` list holds. -/
def check_none (checker : Condition → Bool) : List Condition → Bool
  | [] => true
  | c :: rest => !check_condition checker c && check_none checker rest

/-- Modelled from the spec: `query_checker::check_filter`. -/
def check_filter (checker : Condition → Bool) : Filter → Bool
  | .mk should must mustNot =>
      (match must with
       | none => true
       | some cs => check_all checker cs) &&
      (match mustNot with
       | none => true
       | some cs => check_none checker cs) &&
      (match should with
       | none => true
       | some cs => check_any checker cs)
end

/-- Option-level `must` conjunction (absent list: no constraint). -/
def check_opt_all (checker : Condition → Bool) : Option (List Condition) → Bool
  | none => true
  | some cs => check_all checker cs

/-- Option-level `must_not` check. -/
def check_opt_none (checker : Condition → Bool) : Option (List Condition) → Bool
  | none => true
  | some cs => check_none checker cs

/-- Option-level `should` disjunction. -/
def check_opt_any (checker : Condition → Bool) : Option (List Condition) → Bool
  | none => true
  | some cs => check_any checker cs

/-- Unfolding of `check_filter` through the option-level helpers. -/
theorem check_filter_eq (checker : Condition → Bool)
    (should must mustNot : Option (List Condition)) :
    check_filter checker (.mk should must mustNot) =
      (check_opt_all checker must && check_opt_none checker mustNot &&
        check_opt_any checker should) := by
  cases must <;> cases mustNot <;> cases should <;> rfl

/-- Modelled from the spec: `ConditionChecker::check(point_id, filter)` —
the reference filter evaluation against the canonical payload. -/
def condition_checker_check (env : Env) (point_id : Nat) (f : Filter) : Bool :=
  check_filter (cc_condition env point_id) f

/-! ## `query_points` -/

/-- The visited-bitset pass: keep the first occurrence of every id of the
flattened stream (`check_and_update_visited`, source line 366).  `seen` is
the set of already visited ids. -/
def dedup_visited : List Nat → List Nat → List Nat
  | [], _ => []
  | x :: xs, seen =>
      if x ∈ seen then dedup_visited xs seen else x :: dedup_visited xs (x :: seen)

/-- Id stream obtained for one primary clause (source lines 355–365):
a `Condition` clause delegates to `query_field`, falling back to a full
scan when no variant serves it; an `Ids` clause iterates the set; an
`IsEmpty` clause is a full scan. -/
def clause_stream (env : Env) : PrimaryCondition → List Nat
  | .condition fc => (query_field env fc).getD env.allIds
  | .ids l => l
  | .isEmptyClause _ => env.allIds

/-- Source `query_points` (source lines 328–375): full scan filtered by the
condition checker when no primary clause exists, otherwise the flattened
primary-clause streams, de-duplicated by the visited bitset and re-checked
with the whole filter. -/
def query_points (env : Env) (query : Filter) : List Nat :=
  let query_cardinality := estimate_cardinality env query
  if query_cardinality.primary_clauses.isEmpty then
    env.allIds.filter fun i => condition_checker_check env i query
  else
    let preselected :=
      dedup_visited (query_cardinality.primary_clauses.flatMap (clause_stream env)) []
    preselected.filter fun i => condition_checker_check env i query

/-! ## `StructFilterContext` -/

/-- Source `check_fallback` (source lines 532–539): fall back to the reference
checker iff some primary clause is not a field condition over an indexed
key. -/
def check_fallback (primary_clauses : List PrimaryCondition)
    (field_indexes : List (String × List FieldIndex)) : Bool :=
  primary_clauses.any fun p =>
    match p with
    | .condition field_condition =>
        (alookup field_condition.key field_indexes).isNone
    | _ => true

/-- JSON materialization of integer stored values (source lines 436–451):
a single value becomes a scalar, otherwise an array. -/
def ints_to_value (v : List Int) : Value :=
  match v with
  | [x] => .num x
  | _ => .arr (v.map (fun i => .num i))

/-- JSON materialization of keyword stored values (source lines 468–480). -/
def strs_to_value (v : List String) : Value :=
  match v with
  | [x] => .str x
  | _ => .arr (v.map (fun s => .str s))

/-- JSON materialization of float stored values (source lines 482–499).
`serde_json::Number::from_f64(…).unwrap()` cannot fail in this model:
`Rat` has no NaN. -/
def floats_to_value (v : List Rat) : Value :=
  match v with
  | [x] => .fnum x
  | _ => .arr (v.map (fun q => .fnum q))

/-- Source `build_geo_obj` (source lines 519–530). -/
def build_geo_obj (geo_point : GeoPoint) : Value :=
  .obj [("lat", .fnum geo_point.lat), ("lon", .fnum geo_point.lon)]

/-- JSON materialization of geo stored values (source lines 500–512). -/
def geos_to_value (v : List GeoPoint) : Value :=
  match v with
  | [x] => build_geo_obj x
  | _ => .arr (v.map build_geo_obj)

/-- Per-variant value materialization of `get_field_value`'s match on
`indexes[0]` (source lines 435–513). -/
def materialize_values : FieldIndex → Nat → Option Value
  | .intIndex c, p => (c.get_values p).map ints_to_value
  | .intMapIndex c, p => (c.get_values p).map ints_to_value
  | .keywordIndex c, p => (c.get_values p).map strs_to_value
  | .floatIndex c, p => (c.get_values p).map floats_to_value
  | .geoIndex c, p => (c.get_values p).map geos_to_value

/-- Source `get_field_value` (source lines 429–516).  The outer `Option` models
the indexing panic of `&indexes[0]` on an empty variant vector: `none` is
that panic, `some v?` the normal result (`v? = none` when the key is not
indexed or the point stores no value). -/
def get_field_value (env : Env) (field_name : String) (point_id : Nat) :
    Option (Option Value) :=
  match alookup field_name env.fieldIndexes with
  | none => some none
  | some [] => none
  | some (idx :: _) => some (materialize_values idx point_id)

/-- Short-circuit conjunction over possibly-panicking (`none`) booleans,
mirroring Rust `&&` evaluation order. -/
def andO (a : Option Bool) (b : Unit → Option Bool) : Option Bool :=
  match a with
  | some false => some false
  | some true => b ()
  | none => none

/-- Short-circuit disjunction over possibly-panicking booleans. -/
def orO (a : Option Bool) (b : Unit → Option Bool) : Option Bool :=
  match a with
  | some true => some true
  | some false => b ()
  | none => none

/-- The local (index-driven) leaf checker of `StructFilterContext::check`
(source lines 547–584): field leaves are decided from index-stored values;
any other leaf is the `panic!("Unexpected condition!")`, modelled as
`none`. -/
def local_checker (env : Env) (point_id : Nat) : Condition → Option Bool
  | .cfield fc =>
      match get_field_value env fc.key point_id with
      | none => none
      | some v? => some (v?.elim false (field_condition_sat fc))
  | _ => none

mutual
/-- Possibly-panicking variant of `check_condition`, used by the local
fast path of `StructFilterContext::check`. -/
def check_conditionO (checker : Condition → Option Bool) :
    Condition → Option Bool
  | .subfilter f => check_filterO checker f
  | .cfield fc => checker (.cfield fc)
  | .hasId ids => checker (.hasId ids)
  | .isEmpty k => checker (.isEmpty k)

/-- Possibly-panicking `must` conjunction. -/
def check_allO (checker : Condition → Option Bool) :
    List Condition → Option Bool
  | [] => some true
  | c :: rest => andO (check_conditionO checker c) fun _ => check_allO checker rest

/-- Possibly-panicking `should` disjunction. -/
def check_anyO (checker : Condition → Option Bool) :
    List Condition → Option Bool
  | [] => some false
  | c :: rest => orO (check_conditionO checker c) fun _ => check_anyO checker rest

/-- Possibly-panicking `must_not` check. -/
def check_noneO (checker : Condition → Option Bool) :
    List Condition → Option Bool
  | [] => some true
  | c :: rest =>
      andO ((check_conditionO checker c).map (fun b => !b)) fun _ =>
        check_noneO checker rest

/-- Possibly-panicking `check_filter`, same clause order as the total
one. -/
def check_filterO (checker : Condition → Option Bool) : Filter → Option Bool
  | .mk should must mustNot =>
      andO
        (match must with
         | none => some true
         | some cs => check_allO checker cs) fun _ =>
      andO
        (match mustNot with
         | none => some true
         | some cs => check_noneO checker cs) fun _ =>
      (match should with
       | none => some true
       | some cs => check_anyO checker cs)
end

/-- Source `StructFilterContext::check` (source lines 541–587), for the context
built by `filter_context` (source lines 377–384): the fallback flag is
computed once from the filter's estimated primary clauses; in fallback
mode the reference checker decides, otherwise the filter is evaluated
locally from index-stored values.  `none` models a panic. -/
def filter_context_check (env : Env) (filter : Filter) (point_id : Nat) :
    Option Bool :=
  let cardinality_estimation := estimate_cardinality env filter
  let fallback :=
    check_fallback cardinality_estimation.primary_clauses env.fieldIndexes
  if fallback then some (condition_checker_check env point_id filter)
  else check_filterO (local_checker env point_id) filter

/-! ## Lifecycle and persistence model

State and disk effects of `open` / `set_indexed` / `drop_index`.  The
model is the happy path: disk writes succeed (no claim under verification
concerns I/O failure behaviour of the mutation path).  Every disk access
is recorded as an event, in program order, to settle the persistence
ordering claims. -/

/-- A builder produced by `index_selector`: fed every `(point, value)`
pair of the field in payload order, then built into a `FieldIndex`.
Modelled from the spec: the builder objects live in
`index_selector.rs` / the per-type index files, outside the source under
verification; a builder is modelled by the function from its input stream
to the built index. -/
def IndexBuilder : Type := List (Nat × Value) → FieldIndex

/-- Build-time environment: payload iteration (`PayloadStorage::iter_ids`
and `payload(id).get_value(field)`) and the `index_selector` variant
table. -/
structure BuildEnv where
  payload_ids : List Nat
  payload : Nat → String → Option Value
  index_selector : PayloadSchemaType → List IndexBuilder

/-- Source `build_field_index` (source lines 192–216): stream every point's
field values into each builder of the schema's selector list, then build
each. -/
def build_field_index (benv : BuildEnv) (field : String)
    (field_type : PayloadSchemaType) : List FieldIndex :=
  let pairs := benv.payload_ids.filterMap fun point_id =>
    (benv.payload point_id field).map fun v => (point_id, v)
  (benv.index_selector field_type).map fun builder => builder pairs

/-- Disk accesses of the mutation path, in program order. -/
inductive DiskEvent where
  | writeConfig : List (String × PayloadSchemaType) → DiskEvent
  | writeArtifact : String → List FieldIndex → DiskEvent
  | removeArtifact : String → DiskEvent

/-- Mutable state of a `StructPayloadIndex`: the in-memory config map and
`field_indexes`, plus the on-disk config file and the artifact files
(`P/fields/<key>.idx`). -/
structure PState where
  config : List (String × PayloadSchemaType)
  field_indexes : List (String × List FieldIndex)
  disk_config : Option (List (String × PayloadSchemaType))
  disk_artifacts : List (String × List FieldIndex)

/-- Source `set_indexed` (source lines 241–257): when the key is new, insert the
schema into the config, persist the config (`save_config`), then build and
save the field index (`build_and_save`, source lines 218–229).  When the
key is already present, the insert replaces the in-memory schema tag and
nothing else happens. -/
def set_indexed (benv : BuildEnv) (st : PState) (field : String)
    (payload_type : PayloadSchemaType) : PState × List DiskEvent :=
  match alookup field st.config with
  | some _ => ({ st with config := ainsert field payload_type st.config }, [])
  | none =>
      let config1 := ainsert field payload_type st.config
      let built := build_field_index benv field payload_type
      ({ config := config1,
         field_indexes := ainsert field built st.field_indexes,
         disk_config := some config1,
         disk_artifacts := ainsert field built st.disk_artifacts },
       [.writeConfig config1, .writeArtifact field built])

/-- Source `drop_index` (source lines 259–271): remove from the config, persist
the config unconditionally, drop from memory, then unlink the artifact if
it exists. -/
def drop_index (st : PState) (field : String) : PState × List DiskEvent :=
  let config1 := aremove field st.config
  let has_artifact := (alookup field st.disk_artifacts).isSome
  ({ config := config1,
     field_indexes := aremove field st.field_indexes,
     disk_config := some config1,
     disk_artifacts :=
       if has_artifact then aremove field st.disk_artifacts
       else st.disk_artifacts },
   .writeConfig config1 ::
     (if has_artifact then [.removeArtifact field] else []))

/-- Source `load_or_build_field_index` folded over the config
(`load_all_fields`, source lines 146–154): per configured field, load the
artifact when present, otherwise build from payload storage and write the
artifact.  Returns the `field_indexes` map, the updated artifact
directory and the disk events. -/
def load_all_fields (benv : BuildEnv)
    (arts : List (String × List FieldIndex)) :
    List (String × PayloadSchemaType) →
      List (String × List FieldIndex) × List (String × List FieldIndex) ×
        List DiskEvent
  | [] => ([], arts, [])
  | (field, payload_type) :: rest =>
      match alookup field arts with
      | some loaded =>
          let (fi, arts1, evs) := load_all_fields benv arts rest
          ((field, loaded) :: fi, arts1, evs)
      | none =>
          let built := build_field_index benv field payload_type
          let (fi, arts1, evs) := load_all_fields benv (ainsert field built arts) rest
          ((field, built) :: fi, arts1, .writeArtifact field built :: evs)

/-- Source `open` (source lines 156–190): load the config file (default empty,
saved back when absent), then load or rebuild every configured field
index. -/
def open_index (benv : BuildEnv)
    (disk_config : Option (List (String × PayloadSchemaType)))
    (disk_artifacts : List (String × List FieldIndex)) :
    PState × List DiskEvent :=
  let config := disk_config.getD []
  let config_events :=
    match disk_config with
    | some _ => ([] : List DiskEvent)
    | none => [DiskEvent.writeConfig []]
  let (fi, arts1, evs) := load_all_fields benv disk_artifacts config
  ({ config := config, field_indexes := fi,
     disk_config := some config, disk_artifacts := arts1 },
   config_events ++ evs)

/-- Source `indexed_fields` (source lines 237–239): snapshot of the config
map. -/
def indexed_fields (st : PState) : List (String × PayloadSchemaType) :=
  st.config

/-! ## Association-list lemmas -/

theorem alookup_ainsert_self {β : Type} (k : String) (v : β)
    (l : List (String × β)) : alookup k (ainsert k v l) = some v := by
  induction l with
  | nil => simp [ainsert, alookup]
  | cons h t ih =>
      obtain ⟨k₁, v₁⟩ := h
      by_cases hk : k₁ = k
      · simp [ainsert, hk, alookup]
      · simp [ainsert, hk, alookup, ih]

theorem alookup_ainsert_ne {β : Type} {k k₁ : String} (v : β)
    (l : List (String × β)) (hk : k₁ ≠ k) :
    alookup k₁ (ainsert k v l) = alookup k₁ l := by
  induction l with
  | nil => simp [ainsert, alookup, Ne.symm hk]
  | cons hd t ih =>
      obtain ⟨k₂, v₂⟩ := hd
      by_cases hk₂ : k₂ = k
      · subst hk₂
        simp [ainsert, alookup, Ne.symm hk]
      · by_cases hk₁ : k₂ = k₁
        · subst hk₁
          simp [ainsert, hk, alookup]
        · simp [ainsert, hk₂, alookup, hk₁, ih]

theorem ainsert_eq_self {β : Type} {k : String} {v : β}
    {l : List (String × β)} (h : alookup k l = some v) :
    ainsert k v l = l := by
  induction l with
  | nil => simp [alookup] at h
  | cons hd t ih =>
      obtain ⟨k₁, v₁⟩ := hd
      by_cases hk : k₁ = k
      · subst hk
        simp [alookup] at h
        simp [ainsert, h]
      · simp [alookup, hk] at h
        simp [ainsert, hk, ih h]

theorem aremove_eq_self {β : Type} {k : String}
    {l : List (String × β)} (h : alookup k l = none) :
    aremove k l = l := by
  induction l with
  | nil => simp [aremove]
  | cons hd t ih =>
      obtain ⟨k₁, v₁⟩ := hd
      by_cases hk : k₁ = k
      · simp [alookup, hk] at h
      · simp [alookup, hk] at h
        simp [aremove, hk, ih h]

theorem alookup_aremove_ne {β : Type} {k k₁ : String}
    (l : List (String × β)) (hk : k₁ ≠ k) :
    alookup k₁ (aremove k l) = alookup k₁ l := by
  induction l with
  | nil => simp [aremove]
  | cons hd t ih =>
      obtain ⟨k₂, v₂⟩ := hd
      by_cases hk₂ : k₂ = k
      · subst hk₂
        simp [aremove, alookup, Ne.symm hk]
      · by_cases hk₁ : k₂ = k₁
        · subst hk₁
          simp [aremove, hk₂, alookup]
        · simp [aremove, hk₂, alookup, hk₁, ih]

/-- Keys of an association list. -/
def akeys {β : Type} (l : List (String × β)) : List String :=
  l.map Prod.fst

theorem akeys_nil {β : Type} : akeys ([] : List (String × β)) = [] := rfl

theorem akeys_cons {β : Type} (k : String) (v : β) (t : List (String × β)) :
    akeys ((k, v) :: t) = k :: akeys t := rfl

theorem mem_akeys_iff_isSome {β : Type} (k : String) (l : List (String × β)) :
    k ∈ akeys l ↔ (alookup k l).isSome := by
  induction l with
  | nil => simp [akeys_nil, alookup]
  | cons hd t ih =>
      obtain ⟨k₁, v₁⟩ := hd
      by_cases hk : k₁ = k
      · subst hk
        simp [akeys_cons, alookup]
      · simp [akeys_cons, alookup, hk, Ne.symm hk, ih]

theorem alookup_aremove_self {β : Type} (k : String)
    {l : List (String × β)} (h : (akeys l).Nodup) :
    alookup k (aremove k l) = none := by
  induction l with
  | nil => simp [aremove, alookup]
  | cons hd t ih =>
      obtain ⟨k₁, v₁⟩ := hd
      rw [akeys_cons, List.nodup_cons] at h
      by_cases hk : k₁ = k
      · subst hk
        rw [aremove, if_pos rfl]
        cases htl : alookup k₁ t with
        | none => rfl
        | some v =>
            exact absurd ((mem_akeys_iff_isSome _ _).mpr (by simp [htl])) h.1
      · rw [aremove, if_neg hk, alookup, if_neg hk]
        exact ih h.2

/-! ## Visited-set de-duplication lemmas -/

theorem mem_dedup_visited {x : Nat} :
    ∀ (l seen : List Nat), x ∈ dedup_visited l seen ↔ x ∈ l ∧ x ∉ seen := by
  intro l
  induction l with
  | nil => intro seen; simp [dedup_visited]
  | cons y t ih =>
      intro seen
      by_cases hy : y ∈ seen
      · rw [dedup_visited, if_pos hy, ih]
        constructor
        · rintro ⟨hx, hns⟩
          exact ⟨List.mem_cons_of_mem _ hx, hns⟩
        · rintro ⟨hx, hns⟩
          rcases List.mem_cons.mp hx with rfl | hx
          · exact absurd hy hns
          · exact ⟨hx, hns⟩
      · rw [dedup_visited, if_neg hy]
        constructor
        · intro hmem
          rcases List.mem_cons.mp hmem with rfl | hmem
          · exact ⟨List.mem_cons_self _ _, hy⟩
          · obtain ⟨hx, hns⟩ := (ih (y :: seen)).mp hmem
            exact ⟨List.mem_cons_of_mem _ hx,
              fun hs => hns (List.mem_cons_of_mem _ hs)⟩
        · rintro ⟨hx, hns⟩
          rcases List.mem_cons.mp hx with rfl | hx
          · exact List.mem_cons_self _ _
          · by_cases hxy : x = y
            · subst hxy
              exact List.mem_cons_self _ _
            · refine List.mem_cons_of_mem _ ((ih (y :: seen)).mpr ⟨hx, ?_⟩)
              intro hs
              rcases List.mem_cons.mp hs with h₁ | h₁
              · exact hxy h₁
              · exact hns h₁

theorem nodup_dedup_visited :
    ∀ (l seen : List Nat), (dedup_visited l seen).Nodup := by
  intro l
  induction l with
  | nil => intro seen; simp [dedup_visited]
  | cons y t ih =>
      intro seen
      by_cases hy : y ∈ seen
      · simpa [dedup_visited, if_pos hy] using ih seen
      · simp only [dedup_visited, if_neg hy]
        refine List.nodup_cons.mpr ⟨?_, ih (y :: seen)⟩
        intro hmem
        exact ((mem_dedup_visited t (y :: seen)).mp hmem).2 (List.mem_cons_self y seen)

/-! ## C3 — de-duplication of `query_points` -/

/-- C3: for every filter, `query_points` returns a sequence without
duplicate ids (given that the vector storage iterates each id once), on
both the full-scan and the index-driven path; on the latter the visited
set removes duplicates across overlapping primary-clause streams. -/
theorem query_points_nodup (env : Env) (f : Filter)
    (h : env.allIds.Nodup) : (query_points env f).Nodup := by
  unfold query_points
  by_cases hp : (estimate_cardinality env f).primary_clauses.isEmpty
  · simpa [hp] using h.filter _
  · simpa [hp] using (nodup_dedup_visited _ []).filter _

/-- Witness for C3 at a concrete instance: two points, a `HasId` filter
(index-driven path). -/
theorem query_points_nodup_witness :
    ([0, 1] : List Nat).Nodup ∧
      (query_points ⟨[0, 1], fun _ _ => none, fun e => some e, []⟩
        (.mk none (some [.hasId [0, 0, 1]]) none)).Nodup := by
  constructor
  · decide
  · exact query_points_nodup _ _ (by decide)

/-! ## C4 — `IsEmpty` leaf estimation -/

/-- C4: the leaf estimator of `estimate_cardinality` (source lines
278–304) on an `IsEmpty(field)` condition.  If the field is indexed the
estimate is `{min = 0, exp = total - c, max = total - c}` with `c` the
maximum of `count_indexed_points()` over the field's variants; otherwise
it is `{min = 0, exp = total/2, max = total}`; in both cases the primary
clauses are exactly `[IsEmpty(field)]`. -/
theorem is_empty_leaf_estimation (env : Env) (k : String) :
    (∀ idxs, alookup k env.fieldIndexes = some idxs →
      condition_estimator env (.isEmpty k) =
        some ⟨[PrimaryCondition.isEmptyClause k], 0,
          total_points env -
            idxs.foldl (fun m index => Nat.max m index.count_indexed_points) 0,
          total_points env -
            idxs.foldl (fun m index => Nat.max m index.count_indexed_points) 0⟩) ∧
    (alookup k env.fieldIndexes = none →
      condition_estimator env (.isEmpty k) =
        some ⟨[PrimaryCondition.isEmptyClause k], 0,
          total_points env / 2, total_points env⟩) := by
  constructor
  · intro idxs hidx
    simp [condition_estimator, hidx]
  · intro hidx
    simp [condition_estimator, hidx]

/-- One concrete index variant that reports two indexed points. -/
def c4_index : FieldIndex :=
  .intIndex ⟨fun _ => none, fun _ => none, 2, fun _ => none⟩

/-- Concrete three-point environment where the key `a` hosts
`c4_index`. -/
def c4_env : Env :=
  ⟨[0, 1, 2], fun _ _ => none, fun _ => none, [("a", [c4_index])]⟩

/-- Witness for C4 at a concrete instance: three points, one indexed
variant counting two points (indexed case). -/
theorem is_empty_leaf_estimation_witness :
    (alookup "a" c4_env.fieldIndexes = some [c4_index]) ∧
    condition_estimator c4_env (.isEmpty "a") =
      some ⟨[PrimaryCondition.isEmptyClause "a"], 0, 1, 1⟩ := by
  constructor
  · rfl
  · exact (is_empty_leaf_estimation c4_env "a").1 [c4_index] rfl

/-! ## C5 — idempotence of the lifecycle operations -/

/-- C5: calling `set_indexed(k, s)` again with the key already configured
at the same schema changes nothing — not the config, not the in-memory
`field_indexes`, not the disk (no events, hence no rebuild and no
persistence).  `drop_index(k)` on a key absent from the config (hence,
by the C9 invariant, also absent from `field_indexes`) leaves the config
and `field_indexes` unchanged. -/
theorem lifecycle_idempotence (benv : BuildEnv) (st : PState) (field : String)
    (payload_type : PayloadSchemaType) :
    (alookup field st.config = some payload_type →
      set_indexed benv st field payload_type = (st, [])) ∧
    (alookup field st.config = none →
      alookup field st.field_indexes = none →
      (drop_index st field).1.config = st.config ∧
      (drop_index st field).1.field_indexes = st.field_indexes) := by
  constructor
  · intro h
    simp only [set_indexed, h, ainsert_eq_self h]
  · intro h hfi
    constructor
    · simp [drop_index, aremove_eq_self h]
    · simp [drop_index, aremove_eq_self hfi]

/-- Witness for C5 at a concrete instance: a one-field config; repeated
`set_indexed` is the identity and `drop_index` of an absent key keeps
config and memory. -/
theorem lifecycle_idempotence_witness :
    (alookup "a" [("a", PayloadSchemaType.integer)] =
      some PayloadSchemaType.integer) ∧
    set_indexed ⟨[], fun _ _ => none, fun _ => []⟩
        ⟨[("a", .integer)], [], some [("a", .integer)], []⟩ "a" .integer =
      (⟨[("a", .integer)], [], some [("a", .integer)], []⟩, []) ∧
    (drop_index ⟨[("a", .integer)], [], some [("a", .integer)], []⟩
        "c").1.config = [("a", PayloadSchemaType.integer)] ∧
    (drop_index ⟨[("a", .integer)], [], some [("a", .integer)], []⟩
        "c").1.field_indexes = [] := by
  refine ⟨by simp [alookup], ?_, ?_, ?_⟩
  · exact (lifecycle_idempotence _ _ "a" .integer).1 (by simp [alookup])
  · exact ((lifecycle_idempotence ⟨[], fun _ _ => none, fun _ => []⟩
      ⟨[("a", .integer)], [], some [("a", .integer)], []⟩ "c" .integer).2
      (by simp [alookup]) (by simp [alookup])).1
  · exact ((lifecycle_idempotence ⟨[], fun _ _ => none, fun _ => []⟩
      ⟨[("a", .integer)], [], some [("a", .integer)], []⟩ "c" .integer).2
      (by simp [alookup]) (by simp [alookup])).2

/-! ## C8 — persistence ordering -/

/-- C8: on `set_indexed` of a new key the config file is persisted
strictly before the artifact is written; on `drop_index` the config file
is rewritten strictly before the artifact is unlinked (the event traces
are exactly config-write followed by the artifact operation). -/
theorem persistence_ordering (benv : BuildEnv) (st : PState) (field : String)
    (payload_type : PayloadSchemaType) :
    (alookup field st.config = none →
      (set_indexed benv st field payload_type).2 =
        [DiskEvent.writeConfig (ainsert field payload_type st.config),
         DiskEvent.writeArtifact field (build_field_index benv field payload_type)]) ∧
    (drop_index st field).2 =
      DiskEvent.writeConfig (aremove field st.config) ::
        (if (alookup field st.disk_artifacts).isSome
         then [DiskEvent.removeArtifact field] else []) := by
  constructor
  · intro h
    simp [set_indexed, h]
  · rfl

/-- Witness for C8 at a concrete instance: adding a fresh key writes the
config and then the artifact. -/
theorem persistence_ordering_witness :
    (alookup "a" ([] : List (String × PayloadSchemaType)) = none) ∧
    (set_indexed ⟨[], fun _ _ => none, fun _ => []⟩
        ⟨[], [], some [], []⟩ "a" .integer).2 =
      [DiskEvent.writeConfig [("a", PayloadSchemaType.integer)],
       DiskEvent.writeArtifact "a"
         (build_field_index ⟨[], fun _ _ => none, fun _ => []⟩ "a" .integer)] := by
  refine ⟨rfl, ?_⟩
  have h :=
    (persistence_ordering ⟨[], fun _ _ => none, fun _ => []⟩
      ⟨[], [], some [], []⟩ "a" .integer).1 rfl
  rw [h]
  rfl

/-! ## C10 — schema replacement on an already-indexed key -/

/-- C10: `set_indexed(k, s₂)` on a key already configured with `s₁ ≠ s₂`
succeeds (the operation is total on this path — no I/O is attempted),
replaces only the in-memory schema tag (`indexed_fields` then reports
`s₂`), and leaves the in-memory field indexes, the on-disk config file
and the artifacts untouched (no events). -/
theorem set_indexed_schema_replacement (benv : BuildEnv) (st : PState)
    (field : String) (s₁ s₂ : PayloadSchemaType)
    (h : alookup field st.config = some s₁) (_hne : s₁ ≠ s₂) :
    (set_indexed benv st field s₂).2 = [] ∧
    (set_indexed benv st field s₂).1.config = ainsert field s₂ st.config ∧
    alookup field (indexed_fields (set_indexed benv st field s₂).1) = some s₂ ∧
    (set_indexed benv st field s₂).1.field_indexes = st.field_indexes ∧
    (set_indexed benv st field s₂).1.disk_config = st.disk_config ∧
    (set_indexed benv st field s₂).1.disk_artifacts = st.disk_artifacts := by
  refine ⟨?_, ?_, ?_, ?_, ?_, ?_⟩ <;>
    simp [set_indexed, h, indexed_fields, alookup_ainsert_self]

/-- Witness for C10 at a concrete instance: re-declaring an integer field
as keyword updates only the reported schema. -/
theorem set_indexed_schema_replacement_witness :
    (alookup "a" [("a", PayloadSchemaType.integer)] =
        some PayloadSchemaType.integer) ∧
    PayloadSchemaType.integer ≠ PayloadSchemaType.keyword ∧
    (set_indexed ⟨[], fun _ _ => none, fun _ => []⟩
        ⟨[("a", .integer)], [], some [("a", .integer)], []⟩ "a" .keyword).2 = [] ∧
    alookup "a" (indexed_fields (set_indexed ⟨[], fun _ _ => none, fun _ => []⟩
        ⟨[("a", .integer)], [], some [("a", .integer)], []⟩ "a" .keyword).1) =
      some PayloadSchemaType.keyword := by
  have h := set_indexed_schema_replacement ⟨[], fun _ _ => none, fun _ => []⟩
    ⟨[("a", .integer)], [], some [("a", .integer)], []⟩ "a" .integer .keyword
    (by simp [alookup]) (by decide)
  exact ⟨by simp [alookup], by decide, h.1, h.2.2.1⟩

/-! ## C6 — the read path is not panic-free

`estimate_cardinality` and `query_points` are total in this model (their
only panic, `"Unexpected branching"` in the leaf estimator, is
unreachable because the estimator recursion handles nested filters before
the leaf closure — `condition_estimator` returns `some` on every leaf by
definition).  `StructFilterContext::check`, however, can reach the
`panic!("Unexpected condition!")` of source line 582: a filter whose
`HasId`/`IsEmpty` leaves contribute no primary clause (here,
`must_not [HasId]` — `MustNot` estimation drops all primary clauses)
leaves `check_fallback` false, and the local fast path then meets the
non-`Field` leaf. -/

/-- Concrete single-point environment with no indexed field. -/
def c6_env : Env := ⟨[0], fun _ _ => none, fun _ => none, []⟩

/-- A legal user filter: `must_not: [HasId {0}]`. -/
def c6_filter : Filter := .mk none none (some [.hasId [0]])

/-- C6 failing input: on `must_not [HasId]` the filter context is not in
fallback mode and its check panics (`none`), although the reference
checker would have answered (`true`) — the read path does fail.  (The
claim's `estimate_cardinality`/`query_points` halves do hold: both are
total by construction here.) -/
theorem filter_context_check_panics :
    filter_context_check c6_env c6_filter 0 = none ∧
    check_fallback (estimate_cardinality c6_env c6_filter).primary_clauses
      c6_env.fieldIndexes = false ∧
    condition_checker_check c6_env 0 c6_filter = true := by
  refine ⟨rfl, rfl, rfl⟩

/-! ## C7 — `filter_context` disagrees with the `ConditionChecker`

A `Should` clause over an unindexed field contributes an `unknown`
estimate with no primary clauses, so `check_fallback` sees an empty list
and stays on the local fast path; there `get_field_value` finds no index
for the key and the leaf evaluates to `false`, while the reference
checker reads the payload and answers `true`. -/

/-- Range-like sub-condition: the value is an integer `≥ 1`. -/
def c7_range : SubCondition := fun v =>
  match v with
  | .num n => decide (1 ≤ n)
  | _ => false

/-- Field condition on the unindexed key `b`. -/
def c7_fc : FieldCondition := ⟨"b", none, some c7_range, none, none, none⟩

/-- Concrete single-point environment: point `0` has payload `b = 5`,
nothing is indexed. -/
def c7_env : Env :=
  ⟨[0], fun p k => if p = 0 ∧ k = "b" then some (.num 5) else none,
   fun _ => none, []⟩

/-- The filter `should: [Field(b, range ≥ 1)]`. -/
def c7_filter : Filter := .mk (some [.cfield c7_fc]) none none

/-- C7 failing input: on a `Should` filter over an unindexed field,
`filter_context(F).check(0)` returns `false` while
`ConditionChecker(0, F)` returns `true` — and the context is not even in
fallback mode. -/
theorem filter_context_check_disagrees :
    filter_context_check c7_env c7_filter 0 = some false ∧
    condition_checker_check c7_env 0 c7_filter = true := by
  constructor
  · rfl
  · rfl

/-! ## C9 — memory/config invariant -/

theorem mem_akeys_ainsert {β : Type} {k₁ k : String} (v : β)
    (l : List (String × β)) :
    k₁ ∈ akeys (ainsert k v l) ↔ k₁ = k ∨ k₁ ∈ akeys l := by
  by_cases hk : k₁ = k
  · subst hk
    simp [mem_akeys_iff_isSome, alookup_ainsert_self]
  · simp [mem_akeys_iff_isSome, alookup_ainsert_ne v l hk, hk]

theorem akeys_ainsert_nodup {β : Type} (k : String) (v : β)
    {l : List (String × β)} (h : (akeys l).Nodup) :
    (akeys (ainsert k v l)).Nodup := by
  induction l with
  | nil => simp [ainsert, akeys_cons, akeys_nil]
  | cons hd t ih =>
      obtain ⟨k₁, v₁⟩ := hd
      rw [akeys_cons, List.nodup_cons] at h
      by_cases hk : k₁ = k
      · subst hk
        rw [ainsert, if_pos rfl, akeys_cons, List.nodup_cons]
        exact h
      · rw [ainsert, if_neg hk, akeys_cons, List.nodup_cons]
        refine ⟨?_, ih h.2⟩
        intro hmem
        rcases (mem_akeys_ainsert v t).mp hmem with rfl | hmem
        · exact hk rfl
        · exact h.1 hmem

theorem mem_akeys_aremove {β : Type} {k₁ k : String}
    {l : List (String × β)} (h : k₁ ∈ akeys (aremove k l)) :
    k₁ ∈ akeys l := by
  induction l with
  | nil => simpa [aremove] using h
  | cons hd t ih =>
      obtain ⟨k₂, v₂⟩ := hd
      by_cases hk : k₂ = k
      · rw [aremove, if_pos hk] at h
        rw [akeys_cons]
        exact List.mem_cons_of_mem _ h
      · rw [aremove, if_neg hk, akeys_cons] at h
        rw [akeys_cons]
        rcases List.mem_cons.mp h with rfl | h
        · exact List.mem_cons_self _ _
        · exact List.mem_cons_of_mem _ (ih h)

theorem akeys_aremove_nodup {β : Type} (k : String)
    {l : List (String × β)} (h : (akeys l).Nodup) :
    (akeys (aremove k l)).Nodup := by
  induction l with
  | nil => simpa [aremove] using h
  | cons hd t ih =>
      obtain ⟨k₁, v₁⟩ := hd
      rw [akeys_cons, List.nodup_cons] at h
      by_cases hk : k₁ = k
      · rw [aremove, if_pos hk]
        exact h.2
      · rw [aremove, if_neg hk, akeys_cons, List.nodup_cons]
        exact ⟨fun hmem => h.1 (mem_akeys_aremove hmem), ih h.2⟩

theorem akeys_ainsert_mem {β : Type} {k : String} {w : β} (v : β)
    {l : List (String × β)} (h : alookup k l = some w) :
    akeys (ainsert k v l) = akeys l := by
  induction l with
  | nil => simp [alookup] at h
  | cons hd t ih =>
      obtain ⟨k₁, v₁⟩ := hd
      by_cases hk : k₁ = k
      · subst hk
        rw [ainsert, if_pos rfl, akeys_cons, akeys_cons]
      · rw [alookup, if_neg hk] at h
        rw [ainsert, if_neg hk, akeys_cons, akeys_cons, ih h]

/-- The C9 invariant: well-formed maps, and `field_indexes[k]` holds a
non-empty variant vector exactly for the configured keys. -/
def inv_state (st : PState) : Prop :=
  (akeys st.config).Nodup ∧ (akeys st.field_indexes).Nodup ∧
  ∀ k, (∃ v, alookup k st.field_indexes = some v ∧ v ≠ []) ↔
    (alookup k st.config).isSome

theorem build_field_index_ne_nil (benv : BuildEnv) (field : String)
    (payload_type : PayloadSchemaType)
    (h : benv.index_selector payload_type ≠ []) :
    build_field_index benv field payload_type ≠ [] := by
  unfold build_field_index
  simpa using h

/-- Specification of `load_all_fields`: the produced map binds exactly
the configured keys, in order, and every bound vector is non-empty
(assuming non-empty selector lists and non-empty stored artifacts). -/
theorem load_all_fields_spec (benv : BuildEnv)
    (hsel : ∀ ty, benv.index_selector ty ≠ []) :
    ∀ (cfg : List (String × PayloadSchemaType))
      (arts : List (String × List FieldIndex)),
      (∀ k a, alookup k arts = some a → a ≠ []) →
      akeys (load_all_fields benv arts cfg).1 = akeys cfg ∧
      (∀ k v, alookup k (load_all_fields benv arts cfg).1 = some v → v ≠ []) := by
  intro cfg
  induction cfg with
  | nil =>
      intro arts _harts
      constructor
      · rfl
      · intro k v h
        simp [load_all_fields, alookup] at h
  | cons hd rest ih =>
      obtain ⟨field, payload_type⟩ := hd
      intro arts harts
      cases hart : alookup field arts with
      | some loaded =>
          obtain ⟨ihk, ihv⟩ := ih arts harts
          constructor
          · simp only [load_all_fields, hart, akeys_cons]
            rw [ihk]
          · intro k v h
            simp only [load_all_fields, hart] at h
            rw [alookup] at h
            by_cases hk : field = k
            · rw [if_pos hk] at h
              cases h
              exact harts _ _ hart
            · rw [if_neg hk] at h
              exact ihv _ _ h
      | none =>
          have hbuilt := build_field_index_ne_nil benv field payload_type
            (hsel payload_type)
          have harts₁ : ∀ k a,
              alookup k (ainsert field (build_field_index benv field payload_type) arts)
                = some a → a ≠ [] := by
            intro k a h
            by_cases hk : k = field
            · subst hk
              rw [alookup_ainsert_self] at h
              cases h
              exact hbuilt
            · rw [alookup_ainsert_ne _ _ hk] at h
              exact harts _ _ h
          obtain ⟨ihk, ihv⟩ := ih _ harts₁
          constructor
          · simp only [load_all_fields, hart, akeys_cons]
            rw [ihk]
          · intro k v h
            simp only [load_all_fields, hart] at h
            rw [alookup] at h
            by_cases hk : field = k
            · rw [if_pos hk] at h
              cases h
              exact hbuilt
            · rw [if_neg hk] at h
              exact ihv _ _ h

/-- C9: after every successfully completed operation — `open`,
`set_indexed`, `drop_index` — `field_indexes` holds a non-empty variant
vector for a key iff the config holds an entry for that key.  `open`
establishes the invariant from a well-formed disk state (non-empty
selector lists, non-empty stored artifacts, duplicate-free config keys);
the two mutations preserve it. -/
theorem memory_config_invariant :
    (∀ (benv : BuildEnv) (disk_config : Option (List (String × PayloadSchemaType)))
       (disk_artifacts : List (String × List FieldIndex)),
       (∀ ty, benv.index_selector ty ≠ []) →
       (∀ k a, alookup k disk_artifacts = some a → a ≠ []) →
       (akeys (disk_config.getD [])).Nodup →
       inv_state (open_index benv disk_config disk_artifacts).1) ∧
    (∀ (benv : BuildEnv) (st : PState) (field : String)
       (payload_type : PayloadSchemaType),
       (∀ ty, benv.index_selector ty ≠ []) →
       inv_state st → inv_state (set_indexed benv st field payload_type).1) ∧
    (∀ (st : PState) (field : String),
       inv_state st → inv_state (drop_index st field).1) := by
  refine ⟨?_, ?_, ?_⟩
  · -- open
    intro benv disk_config disk_artifacts hsel harts hnd
    obtain ⟨hkeys, hval⟩ := load_all_fields_spec benv hsel (disk_config.getD [])
      disk_artifacts harts
    refine ⟨hnd, ?_, ?_⟩
    · simpa [open_index, hkeys] using hnd
    · intro k
      simp only [open_index]
      constructor
      · rintro ⟨v, hv, -⟩
        rw [← mem_akeys_iff_isSome, ← hkeys, mem_akeys_iff_isSome, hv]
        rfl
      · intro hs
        rw [← mem_akeys_iff_isSome, ← hkeys, mem_akeys_iff_isSome] at hs
        cases hv : alookup k (load_all_fields benv disk_artifacts
            (disk_config.getD [])).1 with
        | none => rw [hv] at hs; cases hs
        | some v => exact ⟨v, rfl, hval _ _ hv⟩
  · -- set_indexed
    intro benv st field payload_type hsel hinv
    obtain ⟨hc, hf, hiff⟩ := hinv
    cases hcfg : alookup field st.config with
    | some s =>
        refine ⟨?_, ?_, ?_⟩
        · simpa [set_indexed, hcfg, akeys_ainsert_mem payload_type hcfg] using hc
        · simpa [set_indexed, hcfg] using hf
        · intro k
          simp only [set_indexed, hcfg]
          by_cases hk : k = field
          · subst hk
            rw [alookup_ainsert_self]
            simpa [hcfg] using hiff k
          · rw [alookup_ainsert_ne _ _ hk]
            exact hiff k
    | none =>
        have hbuilt := build_field_index_ne_nil benv field payload_type
          (hsel payload_type)
        refine ⟨?_, ?_, ?_⟩
        · simpa [set_indexed, hcfg] using akeys_ainsert_nodup field payload_type hc
        · simpa [set_indexed, hcfg] using
            akeys_ainsert_nodup field (build_field_index benv field payload_type) hf
        · intro k
          simp only [set_indexed, hcfg]
          by_cases hk : k = field
          · subst hk
            rw [alookup_ainsert_self, alookup_ainsert_self]
            simp [hbuilt]
          · rw [alookup_ainsert_ne _ _ hk, alookup_ainsert_ne _ _ hk]
            exact hiff k
  · -- drop_index
    intro st field hinv
    obtain ⟨hc, hf, hiff⟩ := hinv
    refine ⟨?_, ?_, ?_⟩
    · simpa [drop_index] using akeys_aremove_nodup field hc
    · simpa [drop_index] using akeys_aremove_nodup field hf
    · intro k
      simp only [drop_index]
      by_cases hk : k = field
      · subst hk
        rw [alookup_aremove_self k hf, alookup_aremove_self k hc]
        simp
      · rw [alookup_aremove_ne _ hk, alookup_aremove_ne _ hk]
        exact hiff k

/-- Build environment for the C9 witness: one builder per schema. -/
def c9_benv : BuildEnv := ⟨[], fun _ _ => none, fun _ => [fun _ => c4_index]⟩

/-- Witness for C9 at a concrete instance: opening a one-field config
with no artifacts on disk establishes the invariant. -/
theorem memory_config_invariant_witness :
    (∀ ty, c9_benv.index_selector ty ≠ []) ∧
    inv_state (open_index c9_benv (some [("a", PayloadSchemaType.integer)]) []).1 := by
  have hsel : ∀ ty, c9_benv.index_selector ty ≠ [] := by
    intro ty
    simp [c9_benv]
  refine ⟨hsel, ?_⟩
  refine memory_config_invariant.1 c9_benv (some [("a", PayloadSchemaType.integer)]) []
    hsel ?_ ?_
  · intro k a h
    simp [alookup] at h
  · simp [akeys_cons, akeys_nil]

/-! ## Counting lemmas

Result sizes are counts over the id iteration of the vector storage. -/

/-- Number of ids of the storage satisfying a predicate. -/
def cnt (env : Env) (q : Nat → Bool) : Nat := env.allIds.countP q

theorem countP_and_add_le (l : List Nat) (q r : Nat → Bool) :
    l.countP q + l.countP r ≤
      l.countP (fun p => q p && r p) + l.length := by
  induction l with
  | nil => simp
  | cons x t ih =>
      simp only [List.countP_cons, List.length_cons]
      cases hq : q x <;> cases hr : r x <;> simp [hq, hr] <;> omega

theorem countP_imp_le (l : List Nat) (q r : Nat → Bool)
    (h : ∀ p, q p = true → r p = true) : l.countP q ≤ l.countP r := by
  induction l with
  | nil => simp
  | cons x t ih =>
      simp only [List.countP_cons]
      cases hq : q x
      · cases hr : r x <;> simp [hq, hr] <;> omega
      · simp [hq, h x hq]
        omega

theorem countP_or_le_add (l : List Nat) (q r : Nat → Bool) :
    l.countP (fun p => q p || r p) ≤ l.countP q + l.countP r := by
  induction l with
  | nil => simp
  | cons x t ih =>
      simp only [List.countP_cons]
      cases hq : q x <;> cases hr : r x <;> simp [hq, hr] <;> omega

theorem countP_not_add (l : List Nat) (q : Nat → Bool) :
    l.countP (fun p => !q p) + l.countP q = l.length := by
  induction l with
  | nil => simp
  | cons x t ih =>
      simp only [List.countP_cons, List.length_cons]
      cases hq : q x <;> simp [hq] <;> omega

theorem cnt_ext (env : Env) {q r : Nat → Bool} (h : ∀ p, q p = r p) :
    cnt env q = cnt env r := by
  unfold cnt
  rw [funext h]

/-- Soundness of one estimation for one predicate: its `min`/`max` bound
the number of storage ids satisfying the predicate. -/
def sound (env : Env) (e : CardinalityEstimation) (q : Nat → Bool) : Prop :=
  e.min ≤ cnt env q ∧ cnt env q ≤ e.max

theorem sound_full (env : Env) :
    sound env (full_estimation (total_points env)) (fun _ => true) := by
  unfold sound full_estimation cnt total_points
  simp

theorem sound_zero (env : Env) :
    sound env ⟨[], 0, 0, 0⟩ (fun _ => false) := by
  unfold sound cnt
  simp

theorem sound_pc_irrelevant (env : Env) {e : CardinalityEstimation}
    {q : Nat → Bool} (pc : List PrimaryCondition) (h : sound env e q) :
    sound env ⟨pc, e.min, e.exp, e.max⟩ q := h

theorem sound_must_pair (env : Env) {a b : CardinalityEstimation}
    {qa qb : Nat → Bool} (ha : sound env a qa) (hb : sound env b qb) :
    sound env (combine_must_pair (total_points env) a b)
      (fun p => qa p && qb p) := by
  obtain ⟨ha₁, ha₂⟩ := ha
  obtain ⟨hb₁, hb₂⟩ := hb
  constructor
  · have h := countP_and_add_le env.allIds qa qb
    simp only [combine_must_pair, cnt, total_points] at *
    omega
  · have h₁ : cnt env (fun p => qa p && qb p) ≤ cnt env qa :=
      countP_imp_le _ _ _ fun p hp => by
        simpa using (Bool.and_eq_true _ _).mp hp |>.1
    have h₂ : cnt env (fun p => qa p && qb p) ≤ cnt env qb :=
      countP_imp_le _ _ _ fun p hp => by
        simpa using (Bool.and_eq_true _ _).mp hp |>.2
    simp only [combine_must_pair, Nat.le_min]
    exact ⟨le_trans h₁ ha₂, le_trans h₂ hb₂⟩

theorem sound_should_pair (env : Env) {a b : CardinalityEstimation}
    {qa qb : Nat → Bool} (ha : sound env a qa) (hb : sound env b qb) :
    sound env (combine_should_pair (total_points env) a b)
      (fun p => qa p || qb p) := by
  obtain ⟨ha₁, ha₂⟩ := ha
  obtain ⟨hb₁, hb₂⟩ := hb
  constructor
  · have h₁ : cnt env qa ≤ cnt env (fun p => qa p || qb p) :=
      countP_imp_le _ _ _ fun p hp => by simp [hp]
    have h₂ : cnt env qb ≤ cnt env (fun p => qa p || qb p) :=
      countP_imp_le _ _ _ fun p hp => by simp [hp]
    simp only [combine_should_pair, Nat.max_le]
    exact ⟨le_trans ha₁ h₁, le_trans hb₁ h₂⟩
  · have h₁ := countP_or_le_add env.allIds qa qb
    have h₂ := List.countP_le_length (l := env.allIds)
      (p := fun p => qa p || qb p)
    simp only [combine_should_pair, cnt, total_points, Nat.le_min] at *
    omega

theorem sound_invert (env : Env) {a : CardinalityEstimation}
    {q : Nat → Bool} (ha : sound env a q) :
    sound env (invert_estimation (total_points env) a) (fun p => !q p) := by
  obtain ⟨ha₁, ha₂⟩ := ha
  have h := countP_not_add env.allIds q
  have h₂ := List.countP_le_length (l := env.allIds) (p := q)
  simp only [sound, invert_estimation, cnt, total_points] at *
  omega

/-! ## Primary-clause bookkeeping of the estimator -/

theorem foldl_must_pc (total : Nat) :
    ∀ (es : List CardinalityEstimation) (acc : CardinalityEstimation),
      (es.foldl (combine_must_pair total) acc).primary_clauses =
        acc.primary_clauses ++ es.flatMap (fun e => e.primary_clauses) := by
  intro es
  induction es with
  | nil => intro acc; simp
  | cons e t ih =>
      intro acc
      rw [List.foldl_cons, ih, List.flatMap_cons]
      simp [combine_must_pair]

theorem combine_must_list_pc (total : Nat) (es : List CardinalityEstimation) :
    (combine_must_list total es).primary_clauses =
      es.flatMap (fun e => e.primary_clauses) := by
  rw [combine_must_list, foldl_must_pc]
  rfl

theorem foldl_should_pc (total : Nat) :
    ∀ (es : List CardinalityEstimation) (acc : CardinalityEstimation),
      (es.foldl (combine_should_pair total) acc).primary_clauses =
        acc.primary_clauses ++ es.flatMap (fun e => e.primary_clauses) := by
  intro es
  induction es with
  | nil => intro acc; simp
  | cons e t ih =>
      intro acc
      rw [List.foldl_cons, ih, List.flatMap_cons]
      simp [combine_should_pair]

theorem combine_should_list_pc (total : Nat) (es : List CardinalityEstimation) :
    (combine_should_list total es).primary_clauses =
      if es.all (fun e => !e.primary_clauses.isEmpty)
      then es.flatMap (fun e => e.primary_clauses) else [] := by
  rw [combine_should_list]
  by_cases hall : es.all (fun e => !e.primary_clauses.isEmpty)
  · simp only [hall, if_true]
    rw [foldl_should_pc]
    rfl
  · simp only [hall]
    simp

theorem mustnot_group_pc (total : Nat) (es : List CardinalityEstimation) :
    (combine_must_list total
      (es.map (invert_estimation total))).primary_clauses = [] := by
  rw [combine_must_list_pc]
  induction es with
  | nil => rfl
  | cons e t ih =>
      simp only [List.map_cons, List.flatMap_cons, invert_estimation,
        List.nil_append]
      exact ih

/-- Primary clauses contributed by the `must` group. -/
def must_group_pc (env : Env) (total : Nat) :
    Option (List Condition) → List PrimaryCondition
  | none => []
  | some cs => (estimate_list env total cs).flatMap (fun e => e.primary_clauses)

/-- Primary clauses contributed by the `should` group (all-or-nothing). -/
def should_group_pc (env : Env) (total : Nat) :
    Option (List Condition) → List PrimaryCondition
  | none => []
  | some cs =>
      if (estimate_list env total cs).all (fun e => !e.primary_clauses.isEmpty)
      then (estimate_list env total cs).flatMap (fun e => e.primary_clauses)
      else []

/-- Normal form of the primary clauses of a filter estimate: the `must`
contributions, then the `should` contributions (present only when every
`should` child contributed), and nothing from `must_not`. -/
theorem estimate_filter_pc (env : Env) (total : Nat)
    (should must mustNot : Option (List Condition)) :
    (estimate_filter env total (.mk should must mustNot)).primary_clauses =
      must_group_pc env total must ++ should_group_pc env total should := by
  cases must <;> cases should <;> cases mustNot <;>
    simp [estimate_filter, combine_must_list_pc, combine_should_list_pc,
      mustnot_group_pc, invert_estimation, must_group_pc, should_group_pc]

/-! ## Collaborator contracts

The universally quantified claims about the read path hold relative to
the capability contract of the external collaborators (spec §4.A, §4.D,
§6): streams and estimates produced by the field indexes agree with the
reference checker, the id tracker produces valid internal ids, and the
storage iterates each id once. -/

/-- Contract of the environment's external collaborators:
* `nodup_ids` — the vector storage iterates each id once;
* `stream_cover` — an id stream served by a field index contains every
  stored id whose payload the reference checker accepts for that
  condition (index probes over-approximate, spec §4.E rationale);
* `stream_valid` — served id streams only contain stored ids;
* `est_primary` — a field-index estimate names exactly its own condition
  as primary clause (spec §4.D);
* `est_sound` — a field-index estimate soundly bounds the number of
  stored ids the reference checker accepts for the condition (spec §4.A);
* `tracker_valid` — the id tracker maps onto stored ids;
* `indexed_count` — each variant's `count_indexed_points` is at most the
  number of stored ids whose payload is non-empty at its key (every
  indexed point carries a value). -/
structure IndexContracts (env : Env) : Prop where
  nodup_ids : env.allIds.Nodup
  stream_cover : ∀ fc s, query_field env fc = some s →
    ∀ p ∈ env.allIds, cc_condition env p (.cfield fc) = true → p ∈ s
  stream_valid : ∀ fc s, query_field env fc = some s → ∀ p ∈ s, p ∈ env.allIds
  est_primary : ∀ fc e, estimate_field_condition env fc = some e →
    e.primary_clauses = [PrimaryCondition.condition fc]
  est_sound : ∀ fc e, estimate_field_condition env fc = some e →
    e.min ≤ cnt env (fun p => cc_condition env p (.cfield fc)) ∧
    cnt env (fun p => cc_condition env p (.cfield fc)) ≤ e.max
  tracker_valid : ∀ x i, env.idTracker x = some i → i ∈ env.allIds
  indexed_count : ∀ k idxs, alookup k env.fieldIndexes = some idxs →
    ∀ fi ∈ idxs, fi.count_indexed_points ≤
      cnt env (fun p => !cc_condition env p (.isEmpty k))

/-- Satisfaction of one primary clause by one point, as seen by the
reference checker. -/
def clause_sat (env : Env) (p : Nat) : PrimaryCondition → Prop
  | .condition fc => cc_condition env p (.cfield fc) = true
  | .ids l => p ∈ l
  | .isEmptyClause _ => True

mutual
/-- Covering: a condition whose estimate owns primary clauses has, for
every point the reference checker accepts, some primary clause the point
satisfies. -/
theorem cover_condition (env : Env) (h : IndexContracts env) (p : Nat)
    (c : Condition)
    (hpc : (estimate_condition env (total_points env) c).primary_clauses ≠ [])
    (hsat : check_condition (cc_condition env p) c = true) :
    ∃ cl ∈ (estimate_condition env (total_points env) c).primary_clauses,
      clause_sat env p cl := by
  match c with
  | .subfilter f =>
      simp only [estimate_condition] at hpc ⊢
      exact cover_filter env h p f hpc hsat
  | .cfield fc =>
      simp only [estimate_condition, condition_estimator, Option.getD_some]
        at hpc ⊢
      cases hfc : estimate_field_condition env fc with
      | none =>
          rw [hfc] at hpc
          simp [CardinalityEstimation.unknown] at hpc
      | some e =>
          rw [hfc] at hpc
          simp only [Option.getD_some] at hpc ⊢
          rw [h.est_primary fc e hfc]
          exact ⟨.condition fc, by simp, hsat⟩
  | .hasId ids =>
      refine ⟨.ids ((ids.filterMap env.idTracker).dedup), by
        simp [estimate_condition, condition_estimator], ?_⟩
      have : cc_condition env p (.hasId ids) = true := hsat
      simpa [clause_sat, cc_condition, mapped_ids] using this
  | .isEmpty k =>
      refine ⟨.isEmptyClause k, ?_, trivial⟩
      simp only [estimate_condition, condition_estimator]
      cases halk : alookup k env.fieldIndexes <;> simp [halk]
termination_by sizeOf c

/-- Covering for a `must` list: some contributed primary clause is
satisfied when the whole conjunction is. -/
theorem cover_must_list (env : Env) (h : IndexContracts env) (p : Nat)
    (cs : List Condition)
    (hsat : check_all (cc_condition env p) cs = true)
    (hne : (estimate_list env (total_points env) cs).flatMap
      (fun e => e.primary_clauses) ≠ []) :
    ∃ cl ∈ (estimate_list env (total_points env) cs).flatMap
      (fun e => e.primary_clauses), clause_sat env p cl := by
  match cs with
  | [] => simp [estimate_list] at hne
  | c :: rest =>
      simp only [check_all, Bool.and_eq_true] at hsat
      simp only [estimate_list, List.flatMap_cons] at hne ⊢
      by_cases hpcc :
          (estimate_condition env (total_points env) c).primary_clauses = []
      · rw [hpcc] at hne ⊢
        simp only [List.nil_append] at hne ⊢
        exact cover_must_list env h p rest hsat.2 hne
      · obtain ⟨cl, hmem, hs⟩ := cover_condition env h p c hpcc hsat.1
        exact ⟨cl, List.mem_append_left _ hmem, hs⟩
termination_by sizeOf cs

/-- Covering for a `should` list with every child contributing: the
satisfied disjunct's primary clauses contain a satisfied clause. -/
theorem cover_should_list (env : Env) (h : IndexContracts env) (p : Nat)
    (cs : List Condition)
    (hall : ∀ e ∈ estimate_list env (total_points env) cs,
      e.primary_clauses ≠ [])
    (hsat : check_any (cc_condition env p) cs = true) :
    ∃ cl ∈ (estimate_list env (total_points env) cs).flatMap
      (fun e => e.primary_clauses), clause_sat env p cl := by
  match cs with
  | [] => simp [check_any] at hsat
  | c :: rest =>
      simp only [check_any, Bool.or_eq_true] at hsat
      simp only [estimate_list, List.flatMap_cons]
      rcases hsat with hc | hrest
      · obtain ⟨cl, hmem, hs⟩ := cover_condition env h p c
          (hall _ (by simp [estimate_list])) hc
        exact ⟨cl, List.mem_append_left _ hmem, hs⟩
      · obtain ⟨cl, hmem, hs⟩ := cover_should_list env h p rest
          (fun e he => hall e (by simp [estimate_list]; exact Or.inr he)) hrest
        exact ⟨cl, List.mem_append_right _ hmem, hs⟩
termination_by sizeOf cs

/-- Covering for a whole filter: when the estimate owns primary clauses,
every point accepted by the reference checker satisfies one of them
(their streams over-approximate the answer). -/
theorem cover_filter (env : Env) (h : IndexContracts env) (p : Nat)
    (f : Filter)
    (hpc : (estimate_filter env (total_points env) f).primary_clauses ≠ [])
    (hsat : check_filter (cc_condition env p) f = true) :
    ∃ cl ∈ (estimate_filter env (total_points env) f).primary_clauses,
      clause_sat env p cl := by
  match f with
  | .mk should must mustNot =>
      rw [estimate_filter_pc] at hpc ⊢
      rw [check_filter_eq, Bool.and_eq_true, Bool.and_eq_true] at hsat
      obtain ⟨⟨hmust, -⟩, hshould⟩ := hsat
      cases must with
      | some cs =>
          simp only [check_opt_all] at hmust
          simp only [must_group_pc] at hpc ⊢
          by_cases hm : (estimate_list env (total_points env) cs).flatMap
              (fun e => e.primary_clauses) = []
          · rw [hm] at hpc ⊢
            simp only [List.nil_append] at hpc ⊢
            cases should with
            | none =>
                simp only [should_group_pc] at hpc
                exact absurd rfl hpc
            | some cs₂ =>
                simp only [check_opt_any] at hshould
                simp only [should_group_pc] at hpc ⊢
                by_cases hall : (estimate_list env (total_points env) cs₂).all
                    (fun e => !e.primary_clauses.isEmpty)
                · rw [if_pos hall] at hpc ⊢
                  refine cover_should_list env h p cs₂ ?_ hshould
                  intro e he
                  have := (List.all_eq_true.mp hall) e he
                  simpa [List.isEmpty_iff] using this
                · rw [if_neg hall] at hpc
                  exact absurd rfl hpc
          · obtain ⟨cl, hmem, hs⟩ := cover_must_list env h p cs hmust hm
            exact ⟨cl, List.mem_append_left _ hmem, hs⟩
      | none =>
          simp only [must_group_pc, List.nil_append] at hpc ⊢
          cases should with
          | none =>
              simp only [should_group_pc] at hpc
              exact absurd rfl hpc
          | some cs₂ =>
              simp only [check_opt_any] at hshould
              simp only [should_group_pc] at hpc ⊢
              by_cases hall : (estimate_list env (total_points env) cs₂).all
                  (fun e => !e.primary_clauses.isEmpty)
              · rw [if_pos hall] at hpc ⊢
                refine cover_should_list env h p cs₂ ?_ hshould
                intro e he
                have := (List.all_eq_true.mp hall) e he
                simpa [List.isEmpty_iff] using this
              · rw [if_neg hall] at hpc
                exact absurd rfl hpc
termination_by sizeOf f
end

/-- Ids named by an `Ids` primary clause are valid stored ids; other
clauses carry no id set. -/
def clause_ids_ok (env : Env) : PrimaryCondition → Prop
  | .ids l => ∀ x ∈ l, x ∈ env.allIds
  | _ => True

mutual
/-- Provenance of a condition's primary clauses: every produced `Ids`
clause contains only valid stored ids. -/
theorem prim_ok_condition (env : Env) (h : IndexContracts env)
    (c : Condition) :
    ∀ cl ∈ (estimate_condition env (total_points env) c).primary_clauses,
      clause_ids_ok env cl := by
  match c with
  | .subfilter f =>
      simp only [estimate_condition]
      exact prim_ok_filter env h f
  | .cfield fc =>
      intro cl hcl
      simp only [estimate_condition, condition_estimator, Option.getD_some]
        at hcl
      cases hfc : estimate_field_condition env fc with
      | none =>
          rw [hfc] at hcl
          simp [CardinalityEstimation.unknown] at hcl
      | some e =>
          rw [hfc] at hcl
          simp only [Option.getD_some] at hcl
          rw [h.est_primary fc e hfc] at hcl
          simp only [List.mem_singleton] at hcl
          subst hcl
          trivial
  | .hasId ids =>
      intro cl hcl
      simp only [estimate_condition, condition_estimator,
        Option.getD_some, List.mem_singleton] at hcl
      subst hcl
      intro x hx
      rw [List.mem_dedup] at hx
      obtain ⟨y, -, hy⟩ := List.mem_filterMap.mp hx
      exact h.tracker_valid y x hy
  | .isEmpty k =>
      intro cl hcl
      simp only [estimate_condition, condition_estimator] at hcl
      cases halk : alookup k env.fieldIndexes with
      | none =>
          rw [halk] at hcl
          simp only [Option.getD_some, List.mem_singleton] at hcl
          subst hcl
          trivial
      | some idxs =>
          rw [halk] at hcl
          simp only [Option.getD_some, List.mem_singleton] at hcl
          subst hcl
          trivial
termination_by sizeOf c

/-- Provenance for a clause list. -/
theorem prim_ok_list (env : Env) (h : IndexContracts env)
    (cs : List Condition) :
    ∀ cl ∈ (estimate_list env (total_points env) cs).flatMap
      (fun e => e.primary_clauses), clause_ids_ok env cl := by
  match cs with
  | [] =>
      intro cl hcl
      simp [estimate_list] at hcl
  | c :: rest =>
      intro cl hcl
      simp only [estimate_list, List.flatMap_cons] at hcl
      rcases List.mem_append.mp hcl with h₁ | h₂
      · exact prim_ok_condition env h c cl h₁
      · exact prim_ok_list env h rest cl h₂
termination_by sizeOf cs

/-- Provenance for a whole filter. -/
theorem prim_ok_filter (env : Env) (h : IndexContracts env) (f : Filter) :
    ∀ cl ∈ (estimate_filter env (total_points env) f).primary_clauses,
      clause_ids_ok env cl := by
  match f with
  | .mk should must mustNot =>
      intro cl hcl
      rw [estimate_filter_pc] at hcl
      rcases List.mem_append.mp hcl with h₁ | h₂
      · cases must with
        | none => simp [must_group_pc] at h₁
        | some cs =>
            simp only [must_group_pc] at h₁
            exact prim_ok_list env h cs cl h₁
      · cases should with
        | none => simp [should_group_pc] at h₂
        | some cs =>
            simp only [should_group_pc] at h₂
            by_cases hall : (estimate_list env (total_points env) cs).all
                (fun e => !e.primary_clauses.isEmpty)
            · rw [if_pos hall] at h₂
              exact prim_ok_list env h cs cl h₂
            · rw [if_neg hall] at h₂
              simp at h₂
termination_by sizeOf f
end

/-! ## C1 — soundness of `query_points` -/

theorem query_points_full_scan (env : Env) (f : Filter)
    (hpc : (estimate_cardinality env f).primary_clauses.isEmpty = true) :
    query_points env f =
      env.allIds.filter (fun i => condition_checker_check env i f) := by
  simp only [query_points]
  rw [hpc]
  simp

theorem query_points_index_driven (env : Env) (f : Filter)
    (hpc : ¬(estimate_cardinality env f).primary_clauses.isEmpty = true) :
    query_points env f =
      (dedup_visited ((estimate_cardinality env f).primary_clauses.flatMap
        (clause_stream env)) []).filter
          (fun i => condition_checker_check env i f) := by
  simp only [query_points]
  rw [if_neg hpc]

/-- C1: for every filter, the ids returned by `query_points` are exactly
the stored ids the external `ConditionChecker` accepts — on the full-scan
path (no primary clauses) and on the index-driven path alike, given the
collaborator contract. -/
theorem query_points_soundness (env : Env) (f : Filter)
    (h : IndexContracts env) (p : Nat) :
    p ∈ query_points env f ↔
      p ∈ env.allIds ∧ condition_checker_check env p f = true := by
  by_cases hpc : (estimate_cardinality env f).primary_clauses.isEmpty = true
  · rw [query_points_full_scan env f hpc, List.mem_filter]
  · rw [query_points_index_driven env f hpc, List.mem_filter,
      mem_dedup_visited]
    simp only [List.not_mem_nil, not_false_iff, and_true]
    constructor
    · rintro ⟨hstream, hcc⟩
      refine ⟨?_, hcc⟩
      obtain ⟨cl, hcl, hpcl⟩ := List.mem_flatMap.mp hstream
      cases cl with
      | condition fc =>
          cases hqf : query_field env fc with
          | none =>
              simp only [clause_stream, hqf, Option.getD_none] at hpcl
              exact hpcl
          | some s =>
              simp only [clause_stream, hqf, Option.getD_some] at hpcl
              exact h.stream_valid fc s hqf p hpcl
      | ids l =>
          have hok := prim_ok_filter env h f (.ids l) hcl
          exact hok p hpcl
      | isEmptyClause k =>
          simpa [clause_stream] using hpcl
    · rintro ⟨hmem, hcc⟩
      refine ⟨?_, hcc⟩
      have hne : (estimate_filter env (total_points env) f).primary_clauses
          ≠ [] := by
        intro hcon
        apply hpc
        have : (estimate_cardinality env f).primary_clauses = [] := hcon
        rw [this]
        rfl
      obtain ⟨cl, hcl, hs⟩ := cover_filter env h p f hne hcc
      refine List.mem_flatMap.mpr ⟨cl, hcl, ?_⟩
      cases cl with
      | condition fc =>
          cases hqf : query_field env fc with
          | none =>
              simp only [clause_stream, hqf, Option.getD_none]
              exact hmem
          | some s =>
              simp only [clause_stream, hqf, Option.getD_some]
              exact h.stream_cover fc s hqf p hmem hs
      | ids l => exact hs
      | isEmptyClause k => simpa [clause_stream] using hmem

/-! Concrete witness environment for C1/C2: three points, one indexed
key `a` whose only variant streams every stored id for any condition and
estimates `{min 0, max 3}` with itself as primary clause; the payload is
empty (no condition matches), the id tracker maps `0,1,2` onto
themselves. -/

/-- Capability record of the witness variant. -/
def c1_caps : IndexCaps Int :=
  { filterIds := fun _ => some [0, 1, 2],
    estimateCard := fun fc => some ⟨[.condition fc], 0, 0, 3⟩,
    count_indexed_points := 0,
    get_values := fun _ => none }

/-- The witness variant. -/
def c1_index : FieldIndex := .intIndex c1_caps

/-- The witness environment. -/
def c1_env : Env :=
  ⟨[0, 1, 2], fun _ _ => none, fun e => if e ≤ 2 then some e else none,
   [("a", [c1_index])]⟩

/-- A field condition over the indexed key of the witness. -/
def c1_fc : FieldCondition := ⟨"a", none, none, none, none, none⟩

/-- An index-driven filter for the witness. -/
def c1_filter : Filter := .mk none (some [.cfield c1_fc]) none

theorem c1_env_contracts : IndexContracts c1_env := by
  constructor
  · decide
  · intro fc s hs p hp _
    simp only [query_field, c1_env, alookup] at hs
    split at hs
    · simp only [c1_index, c1_caps, List.findSome?] at hs
      cases hs
      exact hp
    · simp [alookup] at hs
  · intro fc s hs p hp
    simp only [query_field, c1_env, alookup] at hs
    split at hs
    · simp only [c1_index, c1_caps, List.findSome?] at hs
      cases hs
      exact hp
    · simp [alookup] at hs
  · intro fc e he
    simp only [estimate_field_condition, c1_env, alookup] at he
    split at he
    · simp only [c1_index, c1_caps, List.findSome?] at he
      cases he
      rfl
    · simp [alookup] at he
  · intro fc e he
    simp only [estimate_field_condition, c1_env, alookup] at he
    split at he
    · simp only [c1_index, c1_caps, List.findSome?] at he
      cases he
      refine ⟨Nat.zero_le _, ?_⟩
      exact le_trans (List.countP_le_length _) (Nat.le_of_eq rfl)
    · simp [alookup] at he
  · intro x i h
    simp only [c1_env] at h
    split at h
    · cases h
      simp only [c1_env, List.mem_cons]
      omega
    · cases h
  · intro k idxs hk fi hfi
    simp only [c1_env, alookup] at hk
    split at hk
    · cases hk
      simp only [List.mem_singleton] at hfi
      subst hfi
      simp [c1_index, c1_caps, FieldIndex.count_indexed_points]
    · simp [alookup] at hk

/-- Witness for C1 at the concrete environment: the index-driven path of
a `must [Field]` filter agrees with the checker-filtered scan at point
`0`. -/
theorem query_points_soundness_witness :
    IndexContracts c1_env ∧
      (0 ∈ query_points c1_env c1_filter ↔
        0 ∈ c1_env.allIds ∧
          condition_checker_check c1_env 0 c1_filter = true) :=
  ⟨c1_env_contracts,
   query_points_soundness c1_env c1_filter c1_env_contracts 0⟩

/-! ## C2 — estimation bounds -/

theorem countP_mem_eq {l m : List Nat} (hl : l.Nodup) (hm : m.Nodup)
    (hsub : ∀ x ∈ m, x ∈ l) :
    l.countP (fun p => decide (p ∈ m)) = m.length := by
  rw [List.countP_eq_length_filter]
  have hf : (l.filter (fun p => decide (p ∈ m))).Nodup := hl.filter _
  have hmem : ∀ x, x ∈ l.filter (fun p => decide (p ∈ m)) ↔ x ∈ m := by
    intro x
    rw [List.mem_filter]
    constructor
    · rintro ⟨-, hx⟩
      exact of_decide_eq_true hx
    · intro hx
      exact ⟨hsub x hx, decide_eq_true hx⟩
  have hfin : (l.filter (fun p => decide (p ∈ m))).toFinset = m.toFinset := by
    ext x
    simp only [List.mem_toFinset]
    exact hmem x
  calc (l.filter (fun p => decide (p ∈ m))).length
      = (l.filter (fun p => decide (p ∈ m))).toFinset.card :=
        (List.toFinset_card_of_nodup hf).symm
    _ = m.toFinset.card := by rw [hfin]
    _ = m.length := List.toFinset_card_of_nodup hm

theorem foldl_max_le {B : Nat} (l : List FieldIndex)
    (hB : ∀ fi ∈ l, fi.count_indexed_points ≤ B) :
    ∀ acc, acc ≤ B →
      l.foldl (fun m index => Nat.max m index.count_indexed_points) acc ≤ B := by
  induction l with
  | nil => intro acc hacc; simpa using hacc
  | cons fi t ih =>
      intro acc hacc
      rw [List.foldl_cons]
      refine ih (fun x hx => hB x (List.mem_cons_of_mem _ hx)) _ ?_
      exact Nat.max_le.mpr ⟨hacc, hB fi (List.mem_cons_self _ _)⟩

theorem sound_congr (env : Env) {e : CardinalityEstimation}
    {q r : Nat → Bool} (hqr : ∀ p, q p = r p) (hs : sound env e q) :
    sound env e r := by
  unfold sound at hs ⊢
  rwa [cnt_ext env (fun p => (hqr p).symm)]

mutual
/-- Per-condition soundness: the leaf estimator bounds the number of
stored ids the reference checker accepts for the condition. -/
theorem bnd_condition (env : Env) (h : IndexContracts env) (c : Condition) :
    sound env (estimate_condition env (total_points env) c)
      (fun p => check_condition (cc_condition env p) c) := by
  match c with
  | .subfilter f => exact bnd_filter env h f
  | .cfield fc =>
      cases hfc : estimate_field_condition env fc with
      | none =>
          simp only [estimate_condition, condition_estimator, Option.getD_some,
            hfc, Option.getD_none]
          constructor
          · exact Nat.zero_le _
          · exact List.countP_le_length _
      | some e =>
          simp only [estimate_condition, condition_estimator, Option.getD_some,
            hfc]
          exact h.est_sound fc e hfc
  | .hasId ids =>
      have hc : cnt env
          (fun p => check_condition (cc_condition env p) (.hasId ids)) =
          ((ids.filterMap env.idTracker).dedup).length := by
        have hq : ∀ p,
            check_condition (cc_condition env p) (.hasId ids) =
              decide (p ∈ (ids.filterMap env.idTracker).dedup) := fun p => rfl
        rw [cnt_ext env hq]
        refine countP_mem_eq h.nodup_ids (List.nodup_dedup _) ?_
        intro x hx
        rw [List.mem_dedup] at hx
        obtain ⟨y, -, hy⟩ := List.mem_filterMap.mp hx
        exact h.tracker_valid y x hy
      exact ⟨Nat.le_of_eq hc.symm, Nat.le_of_eq hc⟩
  | .isEmpty k =>
      cases halk : alookup k env.fieldIndexes with
      | none =>
          simp only [estimate_condition, condition_estimator, halk,
            Option.getD_some]
          constructor
          · exact Nat.zero_le _
          · exact List.countP_le_length _
      | some idxs =>
          simp only [estimate_condition, condition_estimator, halk,
            Option.getD_some]
          constructor
          · exact Nat.zero_le _
          · have hm : idxs.foldl
                (fun m index => Nat.max m index.count_indexed_points) 0 ≤
                cnt env (fun p => !cc_condition env p (.isEmpty k)) :=
              foldl_max_le idxs (fun fi hfi => h.indexed_count k idxs halk fi hfi)
                0 (Nat.zero_le _)
            have hnot := countP_not_add env.allIds
              (fun p => cc_condition env p (.isEmpty k))
            have hle := List.countP_le_length (l := env.allIds)
              (p := fun p => cc_condition env p (.isEmpty k))
            have hq : ∀ p, check_condition (cc_condition env p) (.isEmpty k) =
                cc_condition env p (.isEmpty k) := fun p => rfl
            show cnt env _ ≤ _
            rw [cnt_ext env hq]
            simp only [cnt, total_points] at hm hnot hle ⊢
            omega
termination_by sizeOf c

/-- Fold soundness for a `must` list: starting from any sound
accumulator, the fold bounds the conjunction count. -/
theorem bnd_must_fold (env : Env) (h : IndexContracts env)
    (cs : List Condition) :
    ∀ (acc : CardinalityEstimation) (qa : Nat → Bool), sound env acc qa →
      sound env ((estimate_list env (total_points env) cs).foldl
          (combine_must_pair (total_points env)) acc)
        (fun p => qa p && check_all (cc_condition env p) cs) := by
  match cs with
  | [] =>
      intro acc qa hacc
      simp only [estimate_list, List.foldl_nil]
      refine sound_congr env (fun p => ?_) hacc
      simp [check_all]
  | c :: rest =>
      intro acc qa hacc
      simp only [estimate_list, List.foldl_cons]
      have hstep := sound_must_pair env hacc (bnd_condition env h c)
      have hrec := bnd_must_fold env h rest _ _ hstep
      refine sound_congr env (fun p => ?_) hrec
      simp [check_all, Bool.and_assoc]
termination_by sizeOf cs

/-- Fold soundness for a `should` list. -/
theorem bnd_should_fold (env : Env) (h : IndexContracts env)
    (cs : List Condition) :
    ∀ (acc : CardinalityEstimation) (qa : Nat → Bool), sound env acc qa →
      sound env ((estimate_list env (total_points env) cs).foldl
          (combine_should_pair (total_points env)) acc)
        (fun p => qa p || check_any (cc_condition env p) cs) := by
  match cs with
  | [] =>
      intro acc qa hacc
      simp only [estimate_list, List.foldl_nil]
      refine sound_congr env (fun p => ?_) hacc
      simp [check_any]
  | c :: rest =>
      intro acc qa hacc
      simp only [estimate_list, List.foldl_cons]
      have hstep := sound_should_pair env hacc (bnd_condition env h c)
      have hrec := bnd_should_fold env h rest _ _ hstep
      refine sound_congr env (fun p => ?_) hrec
      simp [check_any, Bool.or_assoc]
termination_by sizeOf cs

/-- Fold soundness for a `must_not` list (inverted children). -/
theorem bnd_mustnot_fold (env : Env) (h : IndexContracts env)
    (cs : List Condition) :
    ∀ (acc : CardinalityEstimation) (qa : Nat → Bool), sound env acc qa →
      sound env (((estimate_list env (total_points env) cs).map
            (invert_estimation (total_points env))).foldl
          (combine_must_pair (total_points env)) acc)
        (fun p => qa p && check_none (cc_condition env p) cs) := by
  match cs with
  | [] =>
      intro acc qa hacc
      simp only [estimate_list, List.map_nil, List.foldl_nil]
      refine sound_congr env (fun p => ?_) hacc
      simp [check_none]
  | c :: rest =>
      intro acc qa hacc
      simp only [estimate_list, List.map_cons, List.foldl_cons]
      have hstep := sound_must_pair env hacc
        (sound_invert env (bnd_condition env h c))
      have hrec := bnd_mustnot_fold env h rest _ _ hstep
      refine sound_congr env (fun p => ?_) hrec
      simp [check_none, Bool.and_assoc]
termination_by sizeOf cs

/-- Whole-filter soundness: the estimator's `min`/`max` bound the number
of stored ids the reference checker accepts. -/
theorem bnd_filter (env : Env) (h : IndexContracts env) (f : Filter) :
    sound env (estimate_filter env (total_points env) f)
      (fun p => check_filter (cc_condition env p) f) := by
  match f with
  | .mk should must mustNot =>
      cases must with
      | some cs =>
          have gm : sound env
              ((estimate_list env (total_points env) cs).foldl
                (combine_must_pair (total_points env))
                (full_estimation (total_points env)))
              (fun p => check_all (cc_condition env p) cs) := by
            refine sound_congr env (fun p => ?_)
              (bnd_must_fold env h cs _ _ (sound_full env))
            simp
          cases should with
          | some cs₂ =>
              have gs : sound env
                  (combine_should_list (total_points env)
                    (estimate_list env (total_points env) cs₂))
                  (fun p => check_any (cc_condition env p) cs₂) := by
                have base : sound env
                    ((estimate_list env (total_points env) cs₂).foldl
                      (combine_should_pair (total_points env)) ⟨[], 0, 0, 0⟩)
                    (fun p => check_any (cc_condition env p) cs₂) := by
                  refine sound_congr env (fun p => ?_)
                    (bnd_should_fold env h cs₂ _ _ (sound_zero env))
                  simp
                unfold combine_should_list
                split
                · exact base
                · exact sound_pc_irrelevant env [] base
              cases mustNot with
              | some csn =>
                  have gn : sound env
                      (((estimate_list env (total_points env) csn).map
                          (invert_estimation (total_points env))).foldl
                        (combine_must_pair (total_points env))
                        (full_estimation (total_points env)))
                      (fun p => check_none (cc_condition env p) csn) := by
                    refine sound_congr env (fun p => ?_)
                      (bnd_mustnot_fold env h csn _ _ (sound_full env))
                    simp
                  have hs := sound_must_pair env
                    (sound_must_pair env (sound_must_pair env (sound_full env) gm) gs)
                    gn
                  refine sound_congr env (fun p => ?_) hs
                  rw [check_filter_eq]
                  simp only [check_opt_all, check_opt_none, check_opt_any,
                    Bool.true_and]
                  cases check_all (cc_condition env p) cs <;>
                    cases check_any (cc_condition env p) cs₂ <;>
                    cases check_none (cc_condition env p) csn <;> rfl
              | none =>
                  have hs := sound_must_pair env
                    (sound_must_pair env (sound_full env) gm) gs
                  refine sound_congr env (fun p => ?_) hs
                  rw [check_filter_eq]
                  simp only [check_opt_all, check_opt_none, check_opt_any,
                    Bool.true_and, Bool.and_true]
          | none =>
              cases mustNot with
              | some csn =>
                  have gn : sound env
                      (((estimate_list env (total_points env) csn).map
                          (invert_estimation (total_points env))).foldl
                        (combine_must_pair (total_points env))
                        (full_estimation (total_points env)))
                      (fun p => check_none (cc_condition env p) csn) := by
                    refine sound_congr env (fun p => ?_)
                      (bnd_mustnot_fold env h csn _ _ (sound_full env))
                    simp
                  have hs := sound_must_pair env
                    (sound_must_pair env (sound_full env) gm) gn
                  refine sound_congr env (fun p => ?_) hs
                  rw [check_filter_eq]
                  simp only [check_opt_all, check_opt_none, check_opt_any,
                    Bool.true_and, Bool.and_true]
              | none =>
                  have hs := sound_must_pair env (sound_full env) gm
                  refine sound_congr env (fun p => ?_) hs
                  rw [check_filter_eq]
                  simp only [check_opt_all, check_opt_none, check_opt_any,
                    Bool.true_and, Bool.and_true]
      | none =>
          cases should with
          | some cs₂ =>
              have gs : sound env
                  (combine_should_list (total_points env)
                    (estimate_list env (total_points env) cs₂))
                  (fun p => check_any (cc_condition env p) cs₂) := by
                have base : sound env
                    ((estimate_list env (total_points env) cs₂).foldl
                      (combine_should_pair (total_points env)) ⟨[], 0, 0, 0⟩)
                    (fun p => check_any (cc_condition env p) cs₂) := by
                  refine sound_congr env (fun p => ?_)
                    (bnd_should_fold env h cs₂ _ _ (sound_zero env))
                  simp
                unfold combine_should_list
                split
                · exact base
                · exact sound_pc_irrelevant env [] base
              cases mustNot with
              | some csn =>
                  have gn : sound env
                      (((estimate_list env (total_points env) csn).map
                          (invert_estimation (total_points env))).foldl
                        (combine_must_pair (total_points env))
                        (full_estimation (total_points env)))
                      (fun p => check_none (cc_condition env p) csn) := by
                    refine sound_congr env (fun p => ?_)
                      (bnd_mustnot_fold env h csn _ _ (sound_full env))
                    simp
                  have hs := sound_must_pair env
                    (sound_must_pair env (sound_full env) gs) gn
                  refine sound_congr env (fun p => ?_) hs
                  rw [check_filter_eq]
                  simp only [check_opt_all, check_opt_none, check_opt_any,
                    Bool.true_and]
                  cases check_any (cc_condition env p) cs₂ <;>
                    cases check_none (cc_condition env p) csn <;> rfl
              | none =>
                  have hs := sound_must_pair env (sound_full env) gs
                  refine sound_congr env (fun p => ?_) hs
                  rw [check_filter_eq]
                  simp only [check_opt_all, check_opt_none, check_opt_any,
                    Bool.true_and, Bool.and_true]
          | none =>
              cases mustNot with
              | some csn =>
                  have gn : sound env
                      (((estimate_list env (total_points env) csn).map
                          (invert_estimation (total_points env))).foldl
                        (combine_must_pair (total_points env))
                        (full_estimation (total_points env)))
                      (fun p => check_none (cc_condition env p) csn) := by
                    refine sound_congr env (fun p => ?_)
                      (bnd_mustnot_fold env h csn _ _ (sound_full env))
                    simp
                  have hs := sound_must_pair env (sound_full env) gn
                  refine sound_congr env (fun p => ?_) hs
                  rw [check_filter_eq]
                  simp only [check_opt_all, check_opt_none, check_opt_any,
                    Bool.true_and, Bool.and_true]
              | none =>
                  refine sound_congr env (fun p => ?_) (sound_full env)
                  rw [check_filter_eq]
                  simp only [check_opt_all, check_opt_none, check_opt_any,
                    Bool.true_and, Bool.and_true]
termination_by sizeOf f
end

/-- C2: for every filter, the estimate brackets the number of ids
returned by `query_points`: `est.min ≤ n ≤ est.max`, given the
collaborator contract. -/
theorem estimation_bounds (env : Env) (f : Filter)
    (h : IndexContracts env) :
    (estimate_cardinality env f).min ≤ (query_points env f).length ∧
      (query_points env f).length ≤ (estimate_cardinality env f).max := by
  have hb := bnd_filter env h f
  have hlen : (query_points env f).length =
      cnt env (fun p => condition_checker_check env p f) := by
    by_cases hpc : (estimate_cardinality env f).primary_clauses.isEmpty = true
    · rw [query_points_full_scan env f hpc, cnt,
        List.countP_eq_length_filter]
    · rw [query_points_index_driven env f hpc]
      have h₁ : ((dedup_visited
            ((estimate_cardinality env f).primary_clauses.flatMap
              (clause_stream env)) []).filter
            (fun i => condition_checker_check env i f)).Nodup :=
        (nodup_dedup_visited _ _).filter _
      have h₂ : (env.allIds.filter
          (fun i => condition_checker_check env i f)).Nodup :=
        h.nodup_ids.filter _
      have hmem : ∀ x, (x ∈ (dedup_visited
            ((estimate_cardinality env f).primary_clauses.flatMap
              (clause_stream env)) []).filter
            (fun i => condition_checker_check env i f)) ↔
          x ∈ env.allIds.filter (fun i => condition_checker_check env i f) := by
        intro x
        rw [← query_points_index_driven env f hpc,
          query_points_soundness env f h x, List.mem_filter]
      have hfin : ((dedup_visited
            ((estimate_cardinality env f).primary_clauses.flatMap
              (clause_stream env)) []).filter
            (fun i => condition_checker_check env i f)).toFinset =
          (env.allIds.filter
            (fun i => condition_checker_check env i f)).toFinset := by
        ext x
        simp only [List.mem_toFinset]
        exact hmem x
      rw [cnt, List.countP_eq_length_filter,
        ← List.toFinset_card_of_nodup h₁, ← List.toFinset_card_of_nodup h₂,
        hfin]
  rw [hlen]
  exact hb

/-- Witness for C2 at the concrete environment of C1. -/
theorem estimation_bounds_witness :
    IndexContracts c1_env ∧
      ((estimate_cardinality c1_env c1_filter).min ≤
          (query_points c1_env c1_filter).length ∧
        (query_points c1_env c1_filter).length ≤
          (estimate_cardinality c1_env c1_filter).max) :=
  ⟨c1_env_contracts, estimation_bounds c1_env c1_filter c1_env_contracts⟩

end Qdrant
